import Mathlib

/-!
Verification of the diff engine of the compara-df repository (src/app.py).

The engine compares two tabular datasets: it tags each row with its original
position, validates that both tables expose the same set of data-column names,
normalizes per-column value representations, stably sorts both tables (by the
caller-supplied key columns, or by all data columns when none are given),
checks that row counts agree, and then computes per-column null-aware mismatch
masks, a global OR-accumulated mask, per-column diff records and the final
report.

Cell values are modelled over the primitive kinds integer, text and boolean
(a closed tagged variant, as in the data model of the design document); a cell
is an optional value, `none` standing for a null.  Machine floating point is
not modelled.  Casting a value to its textual representation follows the
library's rendering: integers print in decimal, booleans as "true"/"false".
-/

/-- Declared kind of a column. -/
inductive Dtype where
  | int
  | str
  | bool
deriving DecidableEq, Repr

/-- A primitive cell value. -/
inductive Val where
  | vInt (n : Int)
  | vStr (s : String)
  | vBool (b : Bool)
deriving DecidableEq, Repr

/-- A cell: either null or a value. -/
abbrev Cell := Option Val

/-- The declared kind of a value. -/
def Val.kind : Val → Dtype
  | .vInt _ => .int
  | .vStr _ => .str
  | .vBool _ => .bool

/-- Textual rendering of a value, as produced by `cast(pl.String)`. -/
def renderVal : Val → String
  | .vInt n => toString n
  | .vStr s => s
  | .vBool b => if b then "true" else "false"

/-- `cast(pl.String).str.strip_chars()`: render to text, then trim whitespace.
Null cells stay null. -/
def castStrip (c : Cell) : Cell :=
  c.map (fun v => .vStr (renderVal v).trim)

/-- `.str.strip_chars()` on a textual column: trim whitespace from both ends.
Null cells stay null. -/
def stripCell (c : Cell) : Cell :=
  c.map (fun v =>
    match v with
    | .vStr s => .vStr s.trim
    | w => w)

/-- Three-way comparison induced by a linear order. -/
def cmpOf {α : Type} [LinearOrder α] (a b : α) : Ordering :=
  if a < b then .lt else if a = b then .eq else .gt

/-- Rank of a value's constructor, used to order values of distinct kinds. -/
def valRank : Val → Nat
  | .vInt _ => 0
  | .vStr _ => 1
  | .vBool _ => 2

/-- Three-way comparison of values: same-kind values compare natively,
values of distinct kinds compare by constructor rank. -/
def cmpVal : Val → Val → Ordering
  | .vInt a, .vInt b => cmpOf a b
  | .vStr a, .vStr b => cmpOf a b
  | .vBool a, .vBool b => cmpOf a b
  | a, b => cmpOf (valRank a) (valRank b)

/-- Three-way comparison of cells: nulls sort first (the library's default). -/
def cmpCell : Cell → Cell → Ordering
  | none, none => .eq
  | none, some _ => .lt
  | some _, none => .gt
  | some a, some b => cmpVal a b

/-- Lexicographic three-way comparison of rows (sequences of cells). -/
def cmpRow : List Cell → List Cell → Ordering
  | [], [] => .eq
  | [], _ :: _ => .lt
  | _ :: _, [] => .gt
  | a :: as, b :: bs =>
    match cmpCell a b with
    | .eq => cmpRow as bs
    | o => o

/-- A comparison outcome is a "less or equal" when it is not `gt`. -/
def leOfCmp (o : Ordering) : Bool :=
  match o with
  | .gt => false
  | _ => true

/-- Projection of a row to the cells at the given column indices. -/
def keyProj (idxs : List Nat) (r : List Cell) : List Cell :=
  idxs.map (fun i => r.getD i none)

/-- Boolean "row at most row" on the key projection: the sort predicate. -/
def rowLe (idxs : List Nat) (r s : List Cell) : Bool :=
  leOfCmp (cmpRow (keyProj idxs r) (keyProj idxs s))

/-- Insert an element into a list before the first entry it compares at
most equal to: the insertion step of a stable insertion sort. -/
def List.insertLe {α : Type} (le : α → α → Bool) (a : α) : List α → List α
  | [] => [a]
  | b :: bs => if le a b then a :: b :: bs else b :: List.insertLe le a bs

/-- Stable sort by repeated insertion.  A stable sort is extensionally
unique, so this models the library's maintain-order sort. -/
def List.stableSort {α : Type} (l : List α) (le : α → α → Bool) : List α :=
  match l with
  | [] => []
  | a :: as => List.insertLe le a (as.stableSort le)

/-- A table: an ordered header of (column name, declared kind) pairs and a
list of rows, each row a list of cells addressed positionally. -/
structure Table where
  header : List (String × Dtype)
  rows : List (List Cell)
deriving DecidableEq, Repr

/-- The ordered column names of a table. -/
def Table.names (t : Table) : List String :=
  t.header.map Prod.fst

/-- Row count. -/
def Table.height (t : Table) : Nat :=
  t.rows.length

/-- Index of the first column with the given name. -/
def idxOf? (name : String) : List String → Option Nat
  | [] => none
  | s :: rest => if s = name then some 0 else (idxOf? name rest).map (· + 1)

/-- Declared kind of the first column with the given name. -/
def Table.dtypeOf (t : Table) (name : String) : Option Dtype :=
  (t.header.find? (fun p => p.1 = name)).map Prod.snd

/-- The value sequence of the first column with the given name
(`df[col]`); empty when the name is absent. -/
def Table.col (t : Table) (name : String) : List Cell :=
  match idxOf? name t.names with
  | some i => t.rows.map (fun r => r.getD i none)
  | none => []

/-- Name of the A-side row-tag column. -/
def tagNameA : String := "Linha_Original_A"

/-- Name of the B-side row-tag column. -/
def tagNameB : String := "Linha_Original_B"

/-- `with_row_index(name, offset=2)`: prepend a tag column whose value at
row i is i + 2 (1-based position plus the header row). -/
def withRowIndex (name : String) (t : Table) : Table :=
  { header := (name, Dtype.int) :: t.header,
    rows := List.zipWith (fun i r => some (Val.vInt (2 + Int.ofNat i)) :: r)
      (List.range t.rows.length) t.rows }

/-- Per-column decision of `normalize_types`: for a column name common to
both tables (the created row-tag columns skipped), a differing declared
kind forces `cast(pl.String).str.strip_chars()` on both sides, an agreeing
textual kind forces `.str.strip_chars()` on both sides, and any other
agreeing kind leaves the column untouched (`none`).  The returned pair is
the resulting declared kind and the cell transformation. -/
def colCast (t1 t2 : Table) (name : String) : Option (Dtype × (Cell → Cell)) :=
  if name ∈ t1.names ∧ name ∈ t2.names then
    if name = tagNameA ∨ name = tagNameB then none
    else
      match t1.dtypeOf name, t2.dtypeOf name with
      | some d1, some d2 =>
        if d1 ≠ d2 then some (Dtype.str, castStrip)
        else if d1 = Dtype.str then some (Dtype.str, stripCell)
        else none
      | _, _ => none
  else none

/-- Apply cell transformations positionally to a row; cells beyond the
transformation list are kept. -/
def applyTs : List (Cell → Cell) → List Cell → List Cell
  | [], cs => cs
  | _ :: _, [] => []
  | g :: gs, c :: cs => g c :: applyTs gs cs

/-- Apply a per-name column transformation to a whole table
(`with_columns` with one expression per selected column). -/
def applyNorm (f : String → Option (Dtype × (Cell → Cell))) (t : Table) : Table :=
  { header := t.header.map (fun p =>
      match f p.1 with
      | some (d, _) => (p.1, d)
      | none => p),
    rows := t.rows.map (applyTs (t.header.map (fun p =>
      match f p.1 with
      | some (_, g) => g
      | none => id))) }

/-- `normalize_types`: reconcile representations of all common columns. -/
def normalizeTypes (t1 t2 : Table) : Table × Table :=
  (applyNorm (colCast t1 t2) t1, applyNorm (colCast t1 t2) t2)

/-- Indices of the given key columns in a table's header. -/
def keyIdxs (t : Table) (keys : List String) : List Nat :=
  keys.map (fun k => (idxOf? k t.names).getD 0)

/-- `df.sort(keys, maintain_order=True)`: fails with the first requested
column that is absent (the library's ColumnNotFoundError), otherwise
stably sorts the rows by the key columns, ascending, nulls first. -/
def sortTable (t : Table) (keys : List String) : Except String Table :=
  match keys.find? (fun k => decide (k ∉ t.names)) with
  | some k => .error k
  | none => .ok { header := t.header,
                  rows := t.rows.stableSort (rowLe (keyIdxs t keys)) }

/-- The first table after tagging and normalization (stages 1 and 3). -/
def taggedNorm1 (df1 df2 : Table) : Table :=
  (normalizeTypes (withRowIndex tagNameA df1) (withRowIndex tagNameB df2)).1

/-- The second table after tagging and normalization (stages 1 and 3). -/
def taggedNorm2 (df1 df2 : Table) : Table :=
  (normalizeTypes (withRowIndex tagNameA df1) (withRowIndex tagNameB df2)).2

/-- The sort key: the caller's keys, or — when none were given — every
column of the first table except its row-tag column. -/
def sortColsOf (df1 df2 : Table) (keys : List String) : List String :=
  if keys = [] then (taggedNorm1 df1 df2).names.filter (fun c => c ≠ tagNameA)
  else keys

/-- Stages 1, 3 and 4 of `execute_comparison`: tag both tables, normalize
types, and sort both sides by the sort key. -/
def alignTables (df1 df2 : Table) (keys : List String) :
    Except String (Table × Table) :=
  match sortTable (taggedNorm1 df1 df2) (sortColsOf df1 df2 keys) with
  | .error e => .error e
  | .ok s1 =>
    match sortTable (taggedNorm2 df1 df2) (sortColsOf df1 df2 keys) with
    | .error e => .error e
    | .ok s2 => .ok (s1, s2)

/-- `ne_missing`: null-aware inequality of two cells. -/
def neMissing (a b : Cell) : Bool :=
  match a, b with
  | none, none => false
  | none, some _ => true
  | some _, none => true
  | some x, some y => decide (x ≠ y)

/-- The positional mismatch mask of one column pair. -/
def colMask (xs ys : List Cell) : List Bool :=
  List.zipWith neMissing xs ys

/-- The mismatch mask of a named column across two aligned tables. -/
def maskFor (s1 s2 : Table) (c : String) : List Bool :=
  colMask (s1.col c) (s2.col c)

/-- One step of the global-mask accumulation (`None` start, then `|`). -/
def orMasks (acc : Option (List Bool)) (m : List Bool) : Option (List Bool) :=
  match acc with
  | none => some m
  | some g => some (List.zipWith or g m)

/-- The data columns checked by the diff loop: every column of the first
table except its row-tag column. -/
def checkColsOf (s1 : Table) : List String :=
  s1.names.filter (fun c => c ≠ tagNameA)

/-- The global mismatch mask: OR of all per-column masks, `none` when no
column was compared. -/
def globalMaskOf (s1 s2 : Table) : Option (List Bool) :=
  (checkColsOf s1).foldl (fun acc c => orMasks acc (maskFor s1 s2 c)) none

/-- Keep the elements whose mask bit is set (`df.filter(mask)`). -/
def filterMask {α : Type} (xs : List α) (m : List Bool) : List α :=
  (List.zip xs m).filterMap (fun p => if p.2 then some p.1 else none)

/-- One mismatch record of one column: both row tags and both compared
values (the horizontal concatenation built in the diff loop). -/
structure DiffRec where
  linA : Cell
  linB : Cell
  valA : Cell
  valB : Cell
deriving DecidableEq, Repr

/-- The diff records of one column, one per set mask bit. -/
def diffRecords (s1 s2 : Table) (c : String) (m : List Bool) : List DiffRec :=
  List.zipWith (fun a b => { linA := a.1, linB := b.1, valA := a.2, valB := b.2 })
    (List.zip (filterMask (s1.col tagNameA) m) (filterMask (s1.col c) m))
    (List.zip (filterMask (s2.col tagNameB) m) (filterMask (s2.col c) m))

/-- The success payload of `execute_comparison`. -/
structure SuccessData where
  diffs : List (String × Nat × List DiffRec)
  colsDiff : List String
  totalRows : Nat
  rowsWithError : Nat
  fullRowsA : Option Table
  fullRowsB : Option Table
  sortedBy : Sum (List String) String
deriving DecidableEq, Repr

/-- Stages 5 and 6 of `execute_comparison` on the aligned tables. -/
def detectDiffs (s1 s2 : Table) (keys : List String) : SuccessData :=
  let pairs := (checkColsOf s1).map (fun c => (c, maskFor s1 s2 c))
  let globalMask := pairs.foldl (fun acc cm => orMasks acc cm.2) none
  let withDiff := pairs.filter (fun cm => 0 < cm.2.count true)
  { diffs := withDiff.map (fun cm =>
      (cm.1, cm.2.count true, diffRecords s1 s2 cm.1 cm.2)),
    colsDiff := withDiff.map (fun cm => cm.1),
    totalRows := s1.height,
    rowsWithError :=
      match globalMask with
      | some g => if 0 < g.count true then g.count true else 0
      | none => 0,
    fullRowsA :=
      match globalMask with
      | some g =>
        if 0 < g.count true then some { header := s1.header, rows := filterMask s1.rows g }
        else none
      | none => none,
    fullRowsB :=
      match globalMask with
      | some g =>
        if 0 < g.count true then some { header := s2.header, rows := filterMask s2.rows g }
        else none
      | none => none,
    sortedBy := if keys = [] then .inr "Todas as colunas (Automático)" else .inl keys }

/-- The outcome of a comparison, one constructor per distinct return of
`execute_comparison`. -/
inductive CompResult where
  | structMismatch (diff : Finset String)
  | sortFailure (failedCol : String)
  | sizeMismatch (h1 h2 : Nat)
  | success (r : SuccessData)
deriving DecidableEq

/-- The `status` string of the returned report. -/
def CompResult.status : CompResult → String
  | .structMismatch _ => "error"
  | .sortFailure _ => "error"
  | .sizeMismatch _ _ => "size_error"
  | .success _ => "success"

/-- The set of data-column names of the tagged first table. -/
def dataColsA (df1 : Table) : Finset String :=
  ((withRowIndex tagNameA df1).names.filter (fun c => c ≠ tagNameA)).toFinset

/-- The set of data-column names of the tagged second table. -/
def dataColsB (df2 : Table) : Finset String :=
  ((withRowIndex tagNameB df2).names.filter (fun c => c ≠ tagNameB)).toFinset

/-- `execute_comparison`: the full pipeline. -/
def executeComparison (df1 df2 : Table) (keys : List String) : CompResult :=
  if dataColsA df1 ≠ dataColsB df2 then
    .structMismatch (symmDiff (dataColsA df1) (dataColsB df2))
  else
    match alignTables df1 df2 keys with
    | .error e => .sortFailure e
    | .ok (s1, s2) =>
      if s1.height ≠ s2.height then .sizeMismatch s1.height s2.height
      else .success (detectDiffs s1 s2 keys)

/-- A well-formed input table: column names are distinct and neither
row-tag name is already taken (the engine would refuse such a frame at
tagging time). -/
def Table.wf (t : Table) : Prop :=
  t.names.Nodup ∧ tagNameA ∉ t.names ∧ tagNameB ∉ t.names

instance (t : Table) : Decidable t.wf := by
  unfold Table.wf
  infer_instance

/-- The cell transformation that `applyNorm f` applies to column `name`. -/
def normFnOf (f : String → Option (Dtype × (Cell → Cell))) (name : String) :
    Cell → Cell :=
  match f name with
  | some (_, g) => g
  | none => id

/-- Whether the result is the structural-mismatch outcome. -/
def CompResult.isStructMismatch : CompResult → Bool
  | .structMismatch _ => true
  | _ => false

/-- Whether the result is the sort-failure outcome. -/
def CompResult.isSortFailure : CompResult → Bool
  | .sortFailure _ => true
  | _ => false

/-- Whether the result is the success outcome. -/
def CompResult.isSuccess : CompResult → Bool
  | .success _ => true
  | _ => false

/-- The mismatched-column list of a result (empty for error outcomes). -/
def resultColsDiff (res : CompResult) : List String :=
  match res with
  | .success r => r.colsDiff
  | _ => []

/-- The A-side full-row subset of a result. -/
def resultFullA (res : CompResult) : Option Table :=
  match res with
  | .success r => r.fullRowsA
  | _ => none

/-- The B-side full-row subset of a result. -/
def resultFullB (res : CompResult) : Option Table :=
  match res with
  | .success r => r.fullRowsB
  | _ => none

/-- The rows-with-error count of a result (zero for error outcomes). -/
def resultRowsErr (res : CompResult) : Nat :=
  match res with
  | .success r => r.rowsWithError
  | _ => 0

/-- The per-column cell transformation list used by `normalizeTypes` on the
tagged pair, keyed by header entry. -/
def normGs (df1 df2 : Table) : (String × Dtype) → (Cell → Cell) :=
  fun p =>
    match colCast (withRowIndex tagNameA df1) (withRowIndex tagNameB df2) p.1 with
    | some (_, g) => g
    | none => id

/-- Swap the two sides of a diff record. -/
def swapRec (d : DiffRec) : DiffRec :=
  { linA := d.linB, linB := d.linA, valA := d.valB, valB := d.valA }

theorem cmpOf_eq_iff {α : Type} [LinearOrder α] (a b : α) :
    cmpOf a b = Ordering.eq ↔ a = b := by
  rcases lt_trichotomy a b with h | h | h
  · simp [cmpOf, h, ne_of_lt h]
  · subst h; simp [cmpOf, lt_irrefl]
  · have h1 : ¬ a < b := not_lt.mpr (le_of_lt h)
    have h2 : a ≠ b := ne_of_gt h
    simp [cmpOf, h1, h2]

theorem cmpOf_swap {α : Type} [LinearOrder α] (a b : α) :
    cmpOf b a = (cmpOf a b).swap := by
  rcases lt_trichotomy a b with h | h | h
  · have h1 : ¬ b < a := not_lt.mpr (le_of_lt h)
    have h2 : b ≠ a := ne_of_gt h
    simp [cmpOf, h, h1, h2, Ordering.swap]
  · subst h; simp [cmpOf, lt_irrefl, Ordering.swap]
  · have h1 : ¬ a < b := not_lt.mpr (le_of_lt h)
    have h2 : a ≠ b := ne_of_gt h
    simp [cmpOf, h, h1, h2, Ordering.swap]

theorem cmpOf_lt_trans {α : Type} [LinearOrder α] {a b c : α}
    (h1 : cmpOf a b = Ordering.lt) (h2 : cmpOf b c = Ordering.lt) :
    cmpOf a c = Ordering.lt := by
  have hab : a < b := by
    by_contra h
    simp only [cmpOf, if_neg h] at h1
    split at h1 <;> simp_all
  have hbc : b < c := by
    by_contra h
    simp only [cmpOf, if_neg h] at h2
    split at h2 <;> simp_all
  simp [cmpOf, lt_trans hab hbc]

theorem cmpVal_eq_iff (a b : Val) : cmpVal a b = Ordering.eq ↔ a = b := by
  cases a <;> cases b <;>
    simp only [cmpVal, valRank, cmpOf_eq_iff, Val.vInt.injEq, Val.vStr.injEq,
      Val.vBool.injEq, reduceCtorEq, iff_false] <;>
    decide

theorem cmpVal_swap (a b : Val) : cmpVal b a = (cmpVal a b).swap := by
  cases a <;> cases b <;>
    simp only [cmpVal, valRank] <;>
    exact cmpOf_swap _ _

theorem cmpVal_lt_trans {a b c : Val}
    (h1 : cmpVal a b = Ordering.lt) (h2 : cmpVal b c = Ordering.lt) :
    cmpVal a c = Ordering.lt := by
  cases a <;> cases b <;> cases c <;>
    simp only [cmpVal, valRank] at h1 h2 ⊢ <;>
    first
      | exact cmpOf_lt_trans h1 h2
      | decide
      | exact absurd h1 (by decide)
      | exact absurd h2 (by decide)

theorem cmpCell_eq_iff (a b : Cell) : cmpCell a b = Ordering.eq ↔ a = b := by
  cases a <;> cases b <;>
    simp [cmpCell, cmpVal_eq_iff]

theorem cmpCell_swap (a b : Cell) : cmpCell b a = (cmpCell a b).swap := by
  cases a <;> cases b <;>
    simp only [cmpCell, Ordering.swap] <;>
    first
      | rfl
      | exact cmpVal_swap _ _

theorem cmpCell_lt_trans {a b c : Cell}
    (h1 : cmpCell a b = Ordering.lt) (h2 : cmpCell b c = Ordering.lt) :
    cmpCell a c = Ordering.lt := by
  cases a <;> cases b <;> cases c <;>
    simp only [cmpCell] at h1 h2 ⊢ <;>
    first
      | rfl
      | exact cmpVal_lt_trans h1 h2
      | simp at h1
      | simp at h2

theorem cmpRow_eq_iff (u v : List Cell) : cmpRow u v = Ordering.eq ↔ u = v := by
  induction u generalizing v with
  | nil => cases v <;> simp [cmpRow]
  | cons a as ih =>
    cases v with
    | nil => simp [cmpRow]
    | cons b bs =>
      simp only [cmpRow]
      rcases ho : cmpCell a b with _ | _ | _
      · constructor
        · intro h
          exact absurd (show Ordering.lt = Ordering.eq from h) (by decide)
        · intro h
          injection h with hab hrest
          exact absurd ((cmpCell_eq_iff a b).mpr hab) (by simp [ho])
      · have hab : a = b := (cmpCell_eq_iff a b).mp ho
        subst hab
        simp [ih]
      · constructor
        · intro h
          exact absurd (show Ordering.gt = Ordering.eq from h) (by decide)
        · intro h
          injection h with hab hrest
          exact absurd ((cmpCell_eq_iff a b).mpr hab) (by simp [ho])

theorem cmpRow_swap (u v : List Cell) : cmpRow v u = (cmpRow u v).swap := by
  induction u generalizing v with
  | nil => cases v <;> rfl
  | cons a as ih =>
    cases v with
    | nil => rfl
    | cons b bs =>
      simp only [cmpRow, cmpCell_swap a b]
      rcases ho : cmpCell a b with _ | _ | _ <;> simp [Ordering.swap, ih]

theorem cmpRow_lt_trans {u v w : List Cell}
    (h1 : cmpRow u v = Ordering.lt) (h2 : cmpRow v w = Ordering.lt) :
    cmpRow u w = Ordering.lt := by
  induction u generalizing v w with
  | nil =>
    cases v with
    | nil => exact h2
    | cons b bs =>
      cases w with
      | nil => simp [cmpRow] at h2
      | cons c cs => rfl
  | cons a as ih =>
    cases v with
    | nil => simp [cmpRow] at h1
    | cons b bs =>
      cases w with
      | nil => simp [cmpRow] at h2
      | cons c cs =>
        simp only [cmpRow] at h1 h2 ⊢
        rcases hab : cmpCell a b with _ | _ | _ <;> rw [hab] at h1 <;>
          rcases hbc : cmpCell b c with _ | _ | _ <;> rw [hbc] at h2
        · rw [cmpCell_lt_trans hab hbc]
        · rw [← (cmpCell_eq_iff b c).mp hbc, hab]
        · exact absurd (show Ordering.gt = Ordering.lt from h2) (by decide)
        · rw [(cmpCell_eq_iff a b).mp hab, hbc]
        · have e1 : a = b := (cmpCell_eq_iff a b).mp hab
          have e2 : b = c := (cmpCell_eq_iff b c).mp hbc
          subst e1
          subst e2
          rw [hab]
          exact ih h1 h2
        · exact absurd (show Ordering.gt = Ordering.lt from h2) (by decide)
        · exact absurd (show Ordering.gt = Ordering.lt from h1) (by decide)
        · exact absurd (show Ordering.gt = Ordering.lt from h1) (by decide)
        · exact absurd (show Ordering.gt = Ordering.lt from h1) (by decide)

theorem leOfCmp_true_iff (o : Ordering) : leOfCmp o = true ↔ o ≠ Ordering.gt := by
  cases o <;> simp [leOfCmp]

theorem rowLe_trans (idxs : List Nat) (a b c : List Cell)
    (h1 : rowLe idxs a b = true) (h2 : rowLe idxs b c = true) :
    rowLe idxs a c = true := by
  rw [rowLe, leOfCmp_true_iff] at h1 h2 ⊢
  rcases hab : cmpRow (keyProj idxs a) (keyProj idxs b) with _ | _ | _
  · rcases hbc : cmpRow (keyProj idxs b) (keyProj idxs c) with _ | _ | _
    · simp [cmpRow_lt_trans hab hbc]
    · have : keyProj idxs b = keyProj idxs c := (cmpRow_eq_iff _ _).mp hbc
      simp [← this, hab]
    · exact absurd hbc h2
  · have : keyProj idxs a = keyProj idxs b := (cmpRow_eq_iff _ _).mp hab
    rw [this]
    exact h2
  · exact absurd hab h1

theorem rowLe_total (idxs : List Nat) (a b : List Cell) :
    (rowLe idxs a b || rowLe idxs b a) = true := by
  simp only [rowLe, Bool.or_eq_true, leOfCmp_true_iff]
  rw [cmpRow_swap (keyProj idxs a) (keyProj idxs b)]
  rcases cmpRow (keyProj idxs a) (keyProj idxs b) with _ | _ | _ <;> simp [Ordering.swap]

theorem rowLe_antisymm_proj (idxs : List Nat) (a b : List Cell)
    (h1 : rowLe idxs a b = true) (h2 : rowLe idxs b a = true) :
    keyProj idxs a = keyProj idxs b := by
  rw [rowLe, leOfCmp_true_iff] at h1 h2
  rw [cmpRow_swap (keyProj idxs a) (keyProj idxs b)] at h2
  rcases h : cmpRow (keyProj idxs a) (keyProj idxs b) with _ | _ | _
  · rw [h] at h2
    simp [Ordering.swap] at h2
  · exact (cmpRow_eq_iff _ _).mp h
  · exact absurd h h1

/-- Rows equal on the key are mutually `rowLe`. -/
theorem rowLe_of_proj_eq (idxs : List Nat) (a b : List Cell)
    (h : keyProj idxs a = keyProj idxs b) : rowLe idxs a b = true := by
  rw [rowLe, leOfCmp_true_iff, h, (cmpRow_eq_iff _ _).mpr rfl]
  simp

theorem List.insertLe_perm {α : Type} (le : α → α → Bool) (a : α) (l : List α) :
    (List.insertLe le a l).Perm (a :: l) := by
  induction l with
  | nil => exact List.Perm.refl _
  | cons b bs ih =>
    by_cases h : le a b
    · rw [List.insertLe, if_pos h]
    · rw [List.insertLe, if_neg h]
      exact (ih.cons b).trans (List.Perm.swap a b bs)

theorem List.stableSort_perm {α : Type} (l : List α) (le : α → α → Bool) :
    (l.stableSort le).Perm l := by
  induction l with
  | nil => exact List.Perm.refl _
  | cons a as ih =>
    rw [List.stableSort]
    exact (List.insertLe_perm le a (as.stableSort le)).trans (ih.cons a)

theorem List.pairwise_insertLe {α : Type} {le : α → α → Bool}
    (htrans : ∀ a b c, le a b = true → le b c = true → le a c = true)
    (htotal : ∀ a b, (le a b || le b a) = true)
    (a : α) (l : List α) (hl : l.Pairwise (fun x y => le x y = true)) :
    (List.insertLe le a l).Pairwise (fun x y => le x y = true) := by
  induction l with
  | nil => simp [List.insertLe]
  | cons b bs ih =>
    rcases List.pairwise_cons.mp hl with ⟨hb, hbs⟩
    by_cases h : le a b
    · rw [List.insertLe, if_pos h]
      refine List.pairwise_cons.mpr ⟨?_, hl⟩
      intro x hx
      rcases List.mem_cons.mp hx with rfl | hx
      · exact h
      · exact htrans a b x h (hb x hx)
    · rw [List.insertLe, if_neg h]
      have hba : le b a = true := by
        have := htotal a b
        rcases Bool.or_eq_true_iff.mp this with h1 | h1
        · exact absurd h1 h
        · exact h1
      refine List.pairwise_cons.mpr ⟨?_, ih hbs⟩
      intro x hx
      have hx2 := (List.insertLe_perm le a bs).mem_iff.mp hx
      rcases List.mem_cons.mp hx2 with rfl | hx2
      · exact hba
      · exact hb x hx2

theorem List.sorted_stableSort {α : Type} {le : α → α → Bool}
    (htrans : ∀ a b c, le a b = true → le b c = true → le a c = true)
    (htotal : ∀ a b, (le a b || le b a) = true)
    (l : List α) :
    (l.stableSort le).Pairwise (fun x y => le x y = true) := by
  induction l with
  | nil => simp [List.stableSort]
  | cons a as ih =>
    rw [List.stableSort]
    exact List.pairwise_insertLe htrans htotal a _ ih

theorem List.sublist_insertLe {α : Type} (le : α → α → Bool) (a : α) (l : List α) :
    l.Sublist (List.insertLe le a l) := by
  induction l with
  | nil => simp [List.insertLe]
  | cons b bs ih =>
    by_cases h : le a b
    · rw [List.insertLe, if_pos h]
      exact (List.Sublist.refl _).cons a
    · rw [List.insertLe, if_neg h]
      exact ih.cons₂ b

theorem List.pair_sublist_insertLe {α : Type} (le : α → α → Bool) (z y : α)
    (s : List α) (hy : y ∈ s) (hzy : le z y = true) :
    [z, y].Sublist (List.insertLe le z s) := by
  induction s with
  | nil => cases hy
  | cons b bs ih =>
    by_cases h : le z b
    · rw [List.insertLe, if_pos h]
      exact (List.singleton_sublist.mpr hy).cons₂ z
    · rw [List.insertLe, if_neg h]
      rcases List.mem_cons.mp hy with rfl | hy2
      · exact absurd hzy h
      · exact (ih hy2).cons b

theorem List.stableSort_stable_pair {α : Type} {le : α → α → Bool} {a b : α}
    {l : List α}
    (htrans : ∀ a b c, le a b = true → le b c = true → le a c = true)
    (htotal : ∀ a b, (le a b || le b a) = true)
    (hab : le a b = true) (hsub : [a, b].Sublist l) :
    [a, b].Sublist (l.stableSort le) := by
  induction l with
  | nil => simp at hsub
  | cons z l2 ih =>
    rw [List.stableSort]
    cases hsub with
    | cons _ h =>
      exact (ih h).trans (List.sublist_insertLe le z (l2.stableSort le))
    | cons₂ _ h =>
      have hy : b ∈ l2.stableSort le :=
        (List.stableSort_perm l2 le).mem_iff.mpr (List.singleton_sublist.mp h)
      exact List.pair_sublist_insertLe le a b _ hy hab

theorem idxOf?_isSome_iff (c : String) (l : List String) :
    (idxOf? c l).isSome ↔ c ∈ l := by
  induction l with
  | nil => simp [idxOf?]
  | cons s rest ih =>
    by_cases h : s = c
    · subst h
      simp [idxOf?]
    · simp only [idxOf?, if_neg h, List.mem_cons]
      rcases hrest : idxOf? c rest with _ | i <;>
        simp [hrest] at ih ⊢ <;> simp [ih, Ne.symm h]

theorem idxOf?_lt (c : String) (l : List String) (i : Nat)
    (h : idxOf? c l = some i) : i < l.length := by
  induction l generalizing i with
  | nil => simp [idxOf?] at h
  | cons s rest ih =>
    by_cases hs : s = c
    · subst hs
      simp only [idxOf?, eq_self_iff_true, if_true, Option.some.injEq] at h
      rw [← h]
      simp
    · simp only [idxOf?, if_neg hs] at h
      rcases hrest : idxOf? c rest with _ | j
      · rw [hrest] at h
        simp at h
      · rw [hrest] at h
        simp at h
        have := ih j hrest
        simp [← h]
        omega

theorem idxOf?_getD (c : String) (l : List String) (i : Nat)
    (h : idxOf? c l = some i) : l.getD i "" = c := by
  induction l generalizing i with
  | nil => simp [idxOf?] at h
  | cons s rest ih =>
    by_cases hs : s = c
    · subst hs
      simp [idxOf?] at h
      simp [← h]
    · simp only [idxOf?, if_neg hs] at h
      rcases hrest : idxOf? c rest with _ | j
      · rw [hrest] at h
        simp at h
      · rw [hrest] at h
        simp at h
        rw [← h]
        simpa using ih j hrest

theorem colMask_getD (xs ys : List Cell) (i : Nat)
    (h1 : i < xs.length) (h2 : i < ys.length) :
    (colMask xs ys).getD i false = neMissing (xs.getD i none) (ys.getD i none) := by
  induction xs generalizing ys i with
  | nil => simp at h1
  | cons x xs ih =>
    cases ys with
    | nil => simp at h2
    | cons y ys =>
      cases i with
      | zero => simp [colMask]
      | succ n =>
        simp only [colMask, List.zipWith_cons_cons, List.getD_cons_succ]
        simp only [List.length_cons, Nat.succ_lt_succ_iff] at h1 h2
        exact ih ys n h1 h2

/-- C1: for every pair of aligned tables and every data column, the
per-column mismatch mask is true at position i if and only if it is not the
case that both values at position i are null and not the case that both are
non-null and equal under the column's native equality; in particular null
versus null is never a mismatch and null versus any non-null value is
always a mismatch. -/
theorem c1_null_aware_mask (s1 s2 : Table) (c : String) (i : Nat)
    (h1 : i < (s1.col c).length) (h2 : i < (s2.col c).length) :
    ((maskFor s1 s2 c).getD i false = true ↔
      (¬((s1.col c).getD i none = none ∧ (s2.col c).getD i none = none) ∧
       ¬(∃ a b, (s1.col c).getD i none = some a ∧
                (s2.col c).getD i none = some b ∧ a = b))) ∧
    ((s1.col c).getD i none = none → (s2.col c).getD i none = none →
      (maskFor s1 s2 c).getD i false = false) ∧
    ((s1.col c).getD i none = none → (s2.col c).getD i none ≠ none →
      (maskFor s1 s2 c).getD i false = true) ∧
    ((s1.col c).getD i none ≠ none → (s2.col c).getD i none = none →
      (maskFor s1 s2 c).getD i false = true) := by
  have hm : (maskFor s1 s2 c).getD i false =
      neMissing ((s1.col c).getD i none) ((s2.col c).getD i none) :=
    colMask_getD _ _ i h1 h2
  rw [hm]
  rcases ha : (s1.col c).getD i none with _ | a <;>
    rcases hb : (s2.col c).getD i none with _ | b
  · simp [neMissing]
  · simp [neMissing]
  · simp [neMissing]
  · constructor
    · simp only [neMissing, decide_eq_true_eq]
      constructor
      · intro hne
        refine ⟨by simp, ?_⟩
        rintro ⟨x, y, hx, hy, hxy⟩
        cases hx
        cases hy
        exact hne hxy
      · rintro ⟨-, hno⟩
        intro hab
        exact hno ⟨a, b, rfl, rfl, hab⟩
    · refine ⟨by simp, by simp, by simp⟩

/-- Witness for C1 at a concrete input: a one-column, one-row pair of
aligned tables holding equal non-null values, whose mask bit is unset. -/
theorem c1_null_aware_mask_witness :
    (0 < ((Table.mk [("v", .int)] [[some (.vInt 7)]]).col "v").length ∧
     ((maskFor (Table.mk [("v", .int)] [[some (.vInt 7)]])
               (Table.mk [("v", .int)] [[some (.vInt 7)]]) "v").getD 0 false = true ↔
       (¬(((Table.mk [("v", .int)] [[some (.vInt 7)]]).col "v").getD 0 none = none ∧
          ((Table.mk [("v", .int)] [[some (.vInt 7)]]).col "v").getD 0 none = none) ∧
        ¬(∃ a b, ((Table.mk [("v", .int)] [[some (.vInt 7)]]).col "v").getD 0 none = some a ∧
                 ((Table.mk [("v", .int)] [[some (.vInt 7)]]).col "v").getD 0 none = some b ∧
                 a = b)))) := by
  refine ⟨by decide, ?_⟩
  exact (c1_null_aware_mask (Table.mk [("v", .int)] [[some (.vInt 7)]])
    (Table.mk [("v", .int)] [[some (.vInt 7)]]) "v" 0 (by decide) (by decide)).1

theorem withRowIndex_names (name : String) (t : Table) :
    (withRowIndex name t).names = name :: t.names := by
  simp [withRowIndex, Table.names]

theorem withRowIndex_height (name : String) (t : Table) :
    (withRowIndex name t).height = t.height := by
  show (List.zipWith (fun i r => some (Val.vInt (2 + Int.ofNat i)) :: r)
    (List.range t.rows.length) t.rows).length = t.rows.length
  rw [List.length_zipWith, List.length_range]
  exact Nat.min_self _

theorem dataColsA_eq (df1 : Table) (h : tagNameA ∉ df1.names) :
    dataColsA df1 = df1.names.toFinset := by
  unfold dataColsA
  rw [withRowIndex_names]
  have hfilter : (tagNameA :: df1.names).filter (fun c => c ≠ tagNameA) = df1.names := by
    rw [List.filter_cons]
    simp only [ne_eq, not_true_eq_false, decide_False, Bool.false_eq_true, if_false]
    exact List.filter_eq_self.mpr (fun a ha => by
      simp only [ne_eq, decide_eq_true_eq]
      exact fun hcontra => h (hcontra ▸ ha))
  rw [hfilter]

theorem dataColsB_eq (df2 : Table) (h : tagNameB ∉ df2.names) :
    dataColsB df2 = df2.names.toFinset := by
  unfold dataColsB
  rw [withRowIndex_names]
  have hfilter : (tagNameB :: df2.names).filter (fun c => c ≠ tagNameB) = df2.names := by
    rw [List.filter_cons]
    simp only [ne_eq, not_true_eq_false, decide_False, Bool.false_eq_true, if_false]
    exact List.filter_eq_self.mpr (fun a ha => by
      simp only [ne_eq, decide_eq_true_eq]
      exact fun hcontra => h (hcontra ▸ ha))
  rw [hfilter]

/-- C4: for every pair of input tables, the result is a structural mismatch
if and only if the two sets of data-column names (tag columns excluded) are
unequal, regardless of row content; when it is, it carries the symmetric
difference of the two name sets (and, being a bare error value, no partial
diff). -/
theorem c4_schema_gate (df1 df2 : Table) (keys : List String)
    (w1 : df1.wf) (w2 : df2.wf) :
    ((∃ d, executeComparison df1 df2 keys = .structMismatch d) ↔
      df1.names.toFinset ≠ df2.names.toFinset) ∧
    (∀ d, executeComparison df1 df2 keys = .structMismatch d →
      d = symmDiff df1.names.toFinset df2.names.toFinset) := by
  obtain ⟨-, hA1, -⟩ := w1
  obtain ⟨-, -, hB2⟩ := w2
  have e1 : dataColsA df1 = df1.names.toFinset := dataColsA_eq df1 hA1
  have e2 : dataColsB df2 = df2.names.toFinset := dataColsB_eq df2 hB2
  by_cases hc : dataColsA df1 = dataColsB df2
  · have hns : df1.names.toFinset = df2.names.toFinset := by rw [← e1, ← e2, hc]
    have hres : ∀ d, executeComparison df1 df2 keys ≠ .structMismatch d := by
      intro d
      simp only [executeComparison, hc, ne_eq, not_true_eq_false, if_false]
      rcases he : alignTables df1 df2 keys with e | p
      · simp
      · obtain ⟨s1, s2⟩ := p
        by_cases hh : s1.height ≠ s2.height <;> simp [hh]
    refine ⟨⟨?_, ?_⟩, ?_⟩
    · rintro ⟨d, hd⟩
      exact absurd hd (hres d)
    · intro hne
      exact absurd hns hne
    · intro d hd
      exact absurd hd (hres d)
  · have hres : executeComparison df1 df2 keys =
        .structMismatch (symmDiff (dataColsA df1) (dataColsB df2)) := by
      simp [executeComparison, hc]
    rw [e1, e2] at hres
    have hne : df1.names.toFinset ≠ df2.names.toFinset := by
      rw [← e1, ← e2]
      exact hc
    refine ⟨⟨fun _ => hne, fun _ => ⟨_, hres⟩⟩, ?_⟩
    intro d hd
    rw [hres] at hd
    injection hd with h
    exact h.symm

/-- Witness for C4 at concrete inputs: tables with column sets {id, amt}
and {id, amount} produce a structural mismatch carrying {amt, amount}. -/
theorem c4_schema_gate_witness :
    (∃ d, executeComparison (Table.mk [("id", .int), ("amt", .int)] [])
      (Table.mk [("id", .int), ("amount", .int)] []) [] = .structMismatch d) ∧
    ((Table.mk [("id", .int), ("amt", .int)] [] : Table).names.toFinset ≠
      (Table.mk [("id", .int), ("amount", .int)] [] : Table).names.toFinset) := by
  have h := c4_schema_gate (Table.mk [("id", .int), ("amt", .int)] [])
    (Table.mk [("id", .int), ("amount", .int)] []) []
    (by decide) (by decide)
  exact ⟨h.1.mpr (by decide), by decide⟩

theorem applyNorm_names (f : String → Option (Dtype × (Cell → Cell))) (t : Table) :
    (applyNorm f t).names = t.names := by
  simp only [applyNorm, Table.names, List.map_map]
  refine List.map_congr_left ?_
  intro p hp
  rcases hf : f p.1 with _ | pr
  · simp [Function.comp, hf]
  · obtain ⟨d, g⟩ := pr
    simp [Function.comp, hf]

theorem applyNorm_height (f : String → Option (Dtype × (Cell → Cell))) (t : Table) :
    (applyNorm f t).height = t.height := by
  simp [applyNorm, Table.height]

theorem getD_fun_none (gs : List (Cell → Cell)) (n : Nat)
    (hnone : ∀ g ∈ gs, g none = none) : (gs.getD n id) none = none := by
  induction gs generalizing n with
  | nil => simp
  | cons g gs ih =>
    cases n with
    | zero => simpa using hnone g (by simp)
    | succ m => simpa using ih m (fun g hg => hnone g (by simp [hg]))

theorem applyTs_getD (gs : List (Cell → Cell)) (r : List Cell) (i : Nat)
    (hnone : ∀ g ∈ gs, g none = none) :
    (applyTs gs r).getD i none = (gs.getD i id) (r.getD i none) := by
  induction gs generalizing r i with
  | nil => simp [applyTs]
  | cons g gs ih =>
    cases r with
    | nil =>
      cases i with
      | zero => simpa [applyTs] using (hnone g (by simp)).symm
      | succ n =>
        simp only [applyTs, List.getD_nil, List.getD_cons_succ]
        exact (getD_fun_none gs n (fun g hg => hnone g (by simp [hg]))).symm
    | cons c cs =>
      cases i with
      | zero => simp [applyTs]
      | succ n =>
        simp only [applyTs, List.getD_cons_succ]
        exact ih cs n (fun g hg => hnone g (by simp [hg]))

theorem applyNorm_col (f : String → Option (Dtype × (Cell → Cell))) (t : Table)
    (c : String) (hc : c ∈ t.names)
    (hnone : ∀ name d g, f name = some (d, g) → g none = none) :
    (applyNorm f t).col c = (t.col c).map (normFnOf f c) := by
  obtain ⟨i, hi⟩ : ∃ i, idxOf? c t.names = some i := by
    have := (idxOf?_isSome_iff c t.names).mpr hc
    rcases h : idxOf? c t.names with _ | i
    · rw [h] at this
      simp at this
    · exact ⟨i, rfl⟩
  have hlen : i < t.names.length := idxOf?_lt c t.names i hi
  have hname : t.names.getD i "" = c := idxOf?_getD c t.names i hi
  have hlenh : i < t.header.length := by
    simpa [Table.names] using hlen
  have hcolname : (t.header.get ⟨i, hlenh⟩).1 = c := by
    rw [← hname, List.getD_eq_getElem t.names "" hlen]
    simp [Table.names, List.get_eq_getElem]
  have hgnone : ∀ g ∈ t.header.map (fun p =>
      match f p.1 with
      | some (_, g) => g
      | none => id), g none = none := by
    intro g hg
    rw [List.mem_map] at hg
    obtain ⟨p, hp, hgp⟩ := hg
    rcases hf : f p.1 with _ | pr
    · rw [hf] at hgp
      simp at hgp
      rw [← hgp]
      rfl
    · obtain ⟨d, g0⟩ := pr
      rw [hf] at hgp
      simp at hgp
      rw [← hgp]
      exact hnone p.1 d g0 hf
  unfold Table.col
  rw [applyNorm_names, hi]
  simp only [applyNorm, List.map_map]
  refine List.map_congr_left ?_
  intro r hr
  simp only [Function.comp]
  rw [applyTs_getD _ _ _ hgnone]
  rw [List.getD_eq_getElem?_getD, List.getElem?_map]
  rw [List.getElem?_eq_getElem hlenh]
  simp only [Option.map_some', Option.getD_some]
  rw [show t.header[i] = t.header.get ⟨i, hlenh⟩ from rfl, hcolname]
  rfl

theorem colCast_preserves_none (t1 t2 : Table) :
    ∀ name d g, colCast t1 t2 name = some (d, g) → g none = none := by
  intro name d g h
  unfold colCast at h
  by_cases hmem : name ∈ t1.names ∧ name ∈ t2.names
  · rw [if_pos hmem] at h
    by_cases htag : name = tagNameA ∨ name = tagNameB
    · rw [if_pos htag] at h
      simp at h
    · rw [if_neg htag] at h
      rcases hm1 : t1.dtypeOf name with _ | d1
      · simp [hm1] at h
      · rcases hm2 : t2.dtypeOf name with _ | d2
        · simp [hm1, hm2] at h
        · simp only [hm1, hm2] at h
          by_cases hne : d1 ≠ d2
          · rw [if_pos hne] at h
            obtain ⟨-, hg⟩ : Dtype.str = d ∧ castStrip = g := by simpa using h
            rw [← hg]
            rfl
          · rw [if_neg hne] at h
            by_cases hstr : d1 = Dtype.str
            · rw [if_pos hstr] at h
              obtain ⟨-, hg⟩ : Dtype.str = d ∧ stripCell = g := by simpa using h
              rw [← hg]
              rfl
            · rw [if_neg hstr] at h
              simp at h
  · rw [if_neg hmem] at h
    simp at h

theorem colCast_branch_cast (t1 t2 : Table) (c : String) (d1 d2 : Dtype)
    (hc1 : c ∈ t1.names) (hc2 : c ∈ t2.names)
    (hta : c ≠ tagNameA) (htb : c ≠ tagNameB)
    (hd1 : t1.dtypeOf c = some d1) (hd2 : t2.dtypeOf c = some d2)
    (hne : d1 ≠ d2) : colCast t1 t2 c = some (Dtype.str, castStrip) := by
  unfold colCast
  rw [if_pos ⟨hc1, hc2⟩, if_neg (by simp [hta, htb]), hd1, hd2]
  simp [hne]

theorem colCast_branch_strip (t1 t2 : Table) (c : String) (d1 d2 : Dtype)
    (hc1 : c ∈ t1.names) (hc2 : c ∈ t2.names)
    (hta : c ≠ tagNameA) (htb : c ≠ tagNameB)
    (hd1 : t1.dtypeOf c = some d1) (hd2 : t2.dtypeOf c = some d2)
    (heq : d1 = d2) (hstr : d1 = Dtype.str) :
    colCast t1 t2 c = some (Dtype.str, stripCell) := by
  unfold colCast
  rw [if_pos ⟨hc1, hc2⟩, if_neg (by simp [hta, htb]), hd1, hd2]
  simp [← heq, hstr]

theorem colCast_branch_keep (t1 t2 : Table) (c : String) (d1 d2 : Dtype)
    (hc1 : c ∈ t1.names) (hc2 : c ∈ t2.names)
    (hta : c ≠ tagNameA) (htb : c ≠ tagNameB)
    (hd1 : t1.dtypeOf c = some d1) (hd2 : t2.dtypeOf c = some d2)
    (heq : d1 = d2) (hstr : d1 ≠ Dtype.str) : colCast t1 t2 c = none := by
  unfold colCast
  rw [if_pos ⟨hc1, hc2⟩, if_neg (by simp [hta, htb]), hd1, hd2]
  simp [← heq, hstr]

/-- C6: for every column name common to both tables (tag columns excluded):
if the two sides declare different kinds, both sides' values for that column
are replaced by their trimmed textual representation before comparison; if
both sides declare a textual kind, both sides are trimmed of leading and
trailing whitespace; if the kinds agree and are non-textual, the column's
values are left unchanged. -/
theorem c6_normalize (t1 t2 : Table) (c : String) (d1 d2 : Dtype)
    (hc1 : c ∈ t1.names) (hc2 : c ∈ t2.names)
    (hta : c ≠ tagNameA) (htb : c ≠ tagNameB)
    (hd1 : t1.dtypeOf c = some d1) (hd2 : t2.dtypeOf c = some d2) :
    (d1 ≠ d2 →
      (normalizeTypes t1 t2).1.col c = (t1.col c).map castStrip ∧
      (normalizeTypes t1 t2).2.col c = (t2.col c).map castStrip) ∧
    (d1 = d2 → d1 = Dtype.str →
      (normalizeTypes t1 t2).1.col c = (t1.col c).map stripCell ∧
      (normalizeTypes t1 t2).2.col c = (t2.col c).map stripCell) ∧
    (d1 = d2 → d1 ≠ Dtype.str →
      (normalizeTypes t1 t2).1.col c = t1.col c ∧
      (normalizeTypes t1 t2).2.col c = t2.col c) := by
  have hnone := colCast_preserves_none t1 t2
  have h1 := applyNorm_col (colCast t1 t2) t1 c hc1 hnone
  have h2 := applyNorm_col (colCast t1 t2) t2 c hc2 hnone
  refine ⟨?_, ?_, ?_⟩
  · intro hne
    have hcc := colCast_branch_cast t1 t2 c d1 d2 hc1 hc2 hta htb hd1 hd2 hne
    have hfn : normFnOf (colCast t1 t2) c = castStrip := by
      unfold normFnOf
      rw [hcc]
    constructor
    · rw [show (normalizeTypes t1 t2).1 = applyNorm (colCast t1 t2) t1 from rfl, h1, hfn]
    · rw [show (normalizeTypes t1 t2).2 = applyNorm (colCast t1 t2) t2 from rfl, h2, hfn]
  · intro heq hstr
    have hcc := colCast_branch_strip t1 t2 c d1 d2 hc1 hc2 hta htb hd1 hd2 heq hstr
    have hfn : normFnOf (colCast t1 t2) c = stripCell := by
      unfold normFnOf
      rw [hcc]
    constructor
    · rw [show (normalizeTypes t1 t2).1 = applyNorm (colCast t1 t2) t1 from rfl, h1, hfn]
    · rw [show (normalizeTypes t1 t2).2 = applyNorm (colCast t1 t2) t2 from rfl, h2, hfn]
  · intro heq hstr
    have hcc := colCast_branch_keep t1 t2 c d1 d2 hc1 hc2 hta htb hd1 hd2 heq hstr
    have hfn : normFnOf (colCast t1 t2) c = id := by
      unfold normFnOf
      rw [hcc]
    constructor
    · rw [show (normalizeTypes t1 t2).1 = applyNorm (colCast t1 t2) t1 from rfl, h1, hfn,
        List.map_id]
    · rw [show (normalizeTypes t1 t2).2 = applyNorm (colCast t1 t2) t2 from rfl, h2, hfn,
        List.map_id]

/-- Witness for C6 at a concrete input: a column declared integer on one
side and text on the other is cast to trimmed text on both sides. -/
theorem c6_normalize_witness :
    (Table.mk [("a", .int)] [[some (.vInt 5)]] : Table).dtypeOf "a" = some .int ∧
    (Table.mk [("a", .str)] [[some (.vStr " 5 ")]] : Table).dtypeOf "a" = some .str ∧
    (normalizeTypes (Table.mk [("a", .int)] [[some (.vInt 5)]])
        (Table.mk [("a", .str)] [[some (.vStr " 5 ")]])).1.col "a" =
      ((Table.mk [("a", .int)] [[some (.vInt 5)]] : Table).col "a").map castStrip ∧
    (normalizeTypes (Table.mk [("a", .int)] [[some (.vInt 5)]])
        (Table.mk [("a", .str)] [[some (.vStr " 5 ")]])).2.col "a" =
      ((Table.mk [("a", .str)] [[some (.vStr " 5 ")]] : Table).col "a").map castStrip := by
  have h := c6_normalize (Table.mk [("a", .int)] [[some (.vInt 5)]])
    (Table.mk [("a", .str)] [[some (.vStr " 5 ")]]) "a" .int .str
    (by decide) (by decide) (by decide) (by decide) (by decide) (by decide)
  obtain ⟨hc1, hc2⟩ := h.1 (by decide)
  exact ⟨by decide, by decide, hc1, hc2⟩

theorem sortTable_ok (t : Table) (keys : List String)
    (h : ∀ k ∈ keys, k ∈ t.names) :
    sortTable t keys =
      .ok ⟨t.header, t.rows.stableSort (rowLe (keyIdxs t keys))⟩ := by
  unfold sortTable
  have hf : keys.find? (fun k => decide (k ∉ t.names)) = none :=
    List.find?_eq_none.mpr (fun x hx => by simp [h x hx])
  rw [hf]

theorem sortTable_isError_iff (t : Table) (keys : List String) :
    (∃ e, sortTable t keys = .error e) ↔ ∃ k ∈ keys, k ∉ t.names := by
  constructor
  · rintro ⟨e, he⟩
    unfold sortTable at he
    rcases hf : keys.find? (fun k => decide (k ∉ t.names)) with _ | k
    · rw [hf] at he
      simp at he
    · refine ⟨k, List.mem_of_find?_eq_some hf, ?_⟩
      have := List.find?_some hf
      simpa using this
  · rintro ⟨k, hk, hnot⟩
    unfold sortTable
    rcases hf : keys.find? (fun k => decide (k ∉ t.names)) with _ | e
    · rw [List.find?_eq_none] at hf
      exact absurd (by simpa using hnot) (by simpa using hf k hk)
    · exact ⟨e, rfl⟩

theorem taggedNorm1_names (df1 df2 : Table) :
    (taggedNorm1 df1 df2).names = tagNameA :: df1.names := by
  unfold taggedNorm1 normalizeTypes
  rw [show ((applyNorm (colCast (withRowIndex tagNameA df1) (withRowIndex tagNameB df2))
      (withRowIndex tagNameA df1),
    applyNorm (colCast (withRowIndex tagNameA df1) (withRowIndex tagNameB df2))
      (withRowIndex tagNameB df2)).1 : Table) =
    applyNorm (colCast (withRowIndex tagNameA df1) (withRowIndex tagNameB df2))
      (withRowIndex tagNameA df1) from rfl]
  rw [applyNorm_names, withRowIndex_names]

theorem taggedNorm2_names (df1 df2 : Table) :
    (taggedNorm2 df1 df2).names = tagNameB :: df2.names := by
  unfold taggedNorm2 normalizeTypes
  rw [show ((applyNorm (colCast (withRowIndex tagNameA df1) (withRowIndex tagNameB df2))
      (withRowIndex tagNameA df1),
    applyNorm (colCast (withRowIndex tagNameA df1) (withRowIndex tagNameB df2))
      (withRowIndex tagNameB df2)).2 : Table) =
    applyNorm (colCast (withRowIndex tagNameA df1) (withRowIndex tagNameB df2))
      (withRowIndex tagNameB df2) from rfl]
  rw [applyNorm_names, withRowIndex_names]

theorem taggedNorm1_height (df1 df2 : Table) :
    (taggedNorm1 df1 df2).height = df1.height := by
  unfold taggedNorm1 normalizeTypes
  rw [show ((applyNorm (colCast (withRowIndex tagNameA df1) (withRowIndex tagNameB df2))
      (withRowIndex tagNameA df1),
    applyNorm (colCast (withRowIndex tagNameA df1) (withRowIndex tagNameB df2))
      (withRowIndex tagNameB df2)).1 : Table) =
    applyNorm (colCast (withRowIndex tagNameA df1) (withRowIndex tagNameB df2))
      (withRowIndex tagNameA df1) from rfl]
  rw [applyNorm_height, withRowIndex_height]

theorem taggedNorm2_height (df1 df2 : Table) :
    (taggedNorm2 df1 df2).height = df2.height := by
  unfold taggedNorm2 normalizeTypes
  rw [show ((applyNorm (colCast (withRowIndex tagNameA df1) (withRowIndex tagNameB df2))
      (withRowIndex tagNameA df1),
    applyNorm (colCast (withRowIndex tagNameA df1) (withRowIndex tagNameB df2))
      (withRowIndex tagNameB df2)).2 : Table) =
    applyNorm (colCast (withRowIndex tagNameA df1) (withRowIndex tagNameB df2))
      (withRowIndex tagNameB df2) from rfl]
  rw [applyNorm_height, withRowIndex_height]

theorem filter_ne_tag_cons (tag : String) (l : List String) (h : tag ∉ l) :
    (tag :: l).filter (fun c => c ≠ tag) = l := by
  rw [List.filter_cons]
  simp only [ne_eq, not_true_eq_false, decide_False, Bool.false_eq_true, if_false]
  exact List.filter_eq_self.mpr (fun a ha => by
    simp only [ne_eq, decide_eq_true_eq]
    exact fun hcontra => h (hcontra ▸ ha))

theorem sortCols_subset1 (df1 df2 : Table) (keys : List String)
    (w1 : df1.wf) (hpresent : ∀ k ∈ keys, k ∈ df1.names) :
    ∀ k ∈ sortColsOf df1 df2 keys, k ∈ (taggedNorm1 df1 df2).names := by
  intro k hk
  rw [taggedNorm1_names]
  unfold sortColsOf at hk
  by_cases hkeys : keys = []
  · rw [if_pos hkeys, taggedNorm1_names, filter_ne_tag_cons _ _ w1.2.1] at hk
    exact List.mem_cons_of_mem _ hk
  · rw [if_neg hkeys] at hk
    exact List.mem_cons_of_mem _ (hpresent k hk)

theorem sortCols_subset2 (df1 df2 : Table) (keys : List String)
    (w1 : df1.wf)
    (hsub : ∀ x ∈ df1.names, x ∈ df2.names)
    (hpresent : ∀ k ∈ keys, k ∈ df2.names) :
    ∀ k ∈ sortColsOf df1 df2 keys, k ∈ (taggedNorm2 df1 df2).names := by
  intro k hk
  rw [taggedNorm2_names]
  unfold sortColsOf at hk
  by_cases hkeys : keys = []
  · rw [if_pos hkeys, taggedNorm1_names, filter_ne_tag_cons _ _ w1.2.1] at hk
    exact List.mem_cons_of_mem _ (hsub k hk)
  · rw [if_neg hkeys] at hk
    exact List.mem_cons_of_mem _ (hpresent k hk)

theorem alignTables_ok (df1 df2 : Table) (keys : List String)
    (h1 : ∀ k ∈ sortColsOf df1 df2 keys, k ∈ (taggedNorm1 df1 df2).names)
    (h2 : ∀ k ∈ sortColsOf df1 df2 keys, k ∈ (taggedNorm2 df1 df2).names) :
    alignTables df1 df2 keys = .ok
      (⟨(taggedNorm1 df1 df2).header,
        (taggedNorm1 df1 df2).rows.stableSort
          (rowLe (keyIdxs (taggedNorm1 df1 df2) (sortColsOf df1 df2 keys)))⟩,
       ⟨(taggedNorm2 df1 df2).header,
        (taggedNorm2 df1 df2).rows.stableSort
          (rowLe (keyIdxs (taggedNorm2 df1 df2) (sortColsOf df1 df2 keys)))⟩) := by
  unfold alignTables
  rw [sortTable_ok _ _ h1, sortTable_ok _ _ h2]

/-- C2: for every pair of schema-valid tables and key list: if the caller
supplied key-column names, both tables are sorted by exactly those columns;
if the key list is empty, both tables are sorted by the full ordered list
of data columns (tag columns excluded); in both cases the sort is stable —
the rows of each sorted side are a permutation of that side's rows,
pairwise ordered by the key, and any two rows equal on the key keep their
pre-sort relative order. -/
theorem c2_aligner_sort (df1 df2 : Table) (keys : List String)
    (w1 : df1.wf)
    (hsets : df1.names.toFinset = df2.names.toFinset)
    (hpresent : ∀ k ∈ keys, k ∈ df1.names ∧ k ∈ df2.names) :
    (keys ≠ [] → sortColsOf df1 df2 keys = keys) ∧
    (keys = [] → sortColsOf df1 df2 keys = df1.names) ∧
    (∃ s1 s2, alignTables df1 df2 keys = .ok (s1, s2) ∧
      s1.rows.Perm (taggedNorm1 df1 df2).rows ∧
      s2.rows.Perm (taggedNorm2 df1 df2).rows ∧
      s1.rows.Pairwise (fun a b =>
        rowLe (keyIdxs (taggedNorm1 df1 df2) (sortColsOf df1 df2 keys)) a b = true) ∧
      s2.rows.Pairwise (fun a b =>
        rowLe (keyIdxs (taggedNorm2 df1 df2) (sortColsOf df1 df2 keys)) a b = true) ∧
      (∀ a b, [a, b].Sublist (taggedNorm1 df1 df2).rows →
        keyProj (keyIdxs (taggedNorm1 df1 df2) (sortColsOf df1 df2 keys)) a =
          keyProj (keyIdxs (taggedNorm1 df1 df2) (sortColsOf df1 df2 keys)) b →
        [a, b].Sublist s1.rows) ∧
      (∀ a b, [a, b].Sublist (taggedNorm2 df1 df2).rows →
        keyProj (keyIdxs (taggedNorm2 df1 df2) (sortColsOf df1 df2 keys)) a =
          keyProj (keyIdxs (taggedNorm2 df1 df2) (sortColsOf df1 df2 keys)) b →
        [a, b].Sublist s2.rows)) := by
  have hsub : ∀ x ∈ df1.names, x ∈ df2.names := fun x hx =>
    List.mem_toFinset.mp (hsets ▸ List.mem_toFinset.mpr hx)
  have h1 := sortCols_subset1 df1 df2 keys w1 (fun k hk => (hpresent k hk).1)
  have h2 := sortCols_subset2 df1 df2 keys w1 hsub (fun k hk => (hpresent k hk).2)
  refine ⟨?_, ?_, ?_⟩
  · intro hk
    unfold sortColsOf
    rw [if_neg hk]
  · intro hk
    unfold sortColsOf
    rw [if_pos hk, taggedNorm1_names, filter_ne_tag_cons _ _ w1.2.1]
  · refine ⟨_, _, alignTables_ok df1 df2 keys h1 h2, ?_, ?_, ?_, ?_, ?_, ?_⟩
    · exact List.stableSort_perm _ _
    · exact List.stableSort_perm _ _
    · exact List.sorted_stableSort (fun a b c => rowLe_trans _ a b c)
        (fun a b => rowLe_total _ a b) _
    · exact List.sorted_stableSort (fun a b c => rowLe_trans _ a b c)
        (fun a b => rowLe_total _ a b) _
    · intro a b hs heq
      exact List.stableSort_stable_pair (fun a b c => rowLe_trans _ a b c)
        (fun a b => rowLe_total _ a b) (rowLe_of_proj_eq _ a b heq) hs
    · intro a b hs heq
      exact List.stableSort_stable_pair (fun a b c => rowLe_trans _ a b c)
        (fun a b => rowLe_total _ a b) (rowLe_of_proj_eq _ a b heq) hs

/-- Witness for C2 at a concrete input: with no keys, the sort key of a
one-column table pair is the full data-column list. -/
theorem c2_aligner_sort_witness :
    sortColsOf (Table.mk [("k", .int)] [[some (.vInt 1)]])
      (Table.mk [("k", .int)] [[some (.vInt 1)]]) [] =
      (Table.mk [("k", .int)] [[some (.vInt 1)]] : Table).names ∧
    (∃ s1 s2, alignTables (Table.mk [("k", .int)] [[some (.vInt 1)]])
      (Table.mk [("k", .int)] [[some (.vInt 1)]]) [] = .ok (s1, s2)) := by
  have h := c2_aligner_sort (Table.mk [("k", .int)] [[some (.vInt 1)]])
    (Table.mk [("k", .int)] [[some (.vInt 1)]]) [] (by decide) rfl (by simp)
  obtain ⟨s1, s2, halign, -⟩ := h.2.2
  exact ⟨h.2.1 rfl, ⟨s1, s2, halign⟩⟩

/-- C5: for every pair of schema-valid tables whose row counts differ, the
pipeline, after sorting both sides, terminates with the size-mismatch
status carrying both row counts — a bare error value with no per-column
diffs, no mismatched-column list and no row subsets. -/
theorem c5_size_mismatch (df1 df2 : Table) (keys : List String)
    (w1 : df1.wf) (w2 : df2.wf)
    (hsets : df1.names.toFinset = df2.names.toFinset)
    (hpresent : ∀ k ∈ keys, k ∈ df1.names ∧ k ∈ df2.names)
    (hne : df1.height ≠ df2.height) :
    executeComparison df1 df2 keys = .sizeMismatch df1.height df2.height := by
  have e1 : dataColsA df1 = df1.names.toFinset := dataColsA_eq df1 w1.2.1
  have e2 : dataColsB df2 = df2.names.toFinset := dataColsB_eq df2 w2.2.2
  have hc : dataColsA df1 = dataColsB df2 := by rw [e1, e2, hsets]
  have hsub : ∀ x ∈ df1.names, x ∈ df2.names := fun x hx =>
    List.mem_toFinset.mp (hsets ▸ List.mem_toFinset.mpr hx)
  have h1 := sortCols_subset1 df1 df2 keys w1 (fun k hk => (hpresent k hk).1)
  have h2 := sortCols_subset2 df1 df2 keys w1 hsub (fun k hk => (hpresent k hk).2)
  have halign := alignTables_ok df1 df2 keys h1 h2
  have hh1 : (Table.mk (taggedNorm1 df1 df2).header
      ((taggedNorm1 df1 df2).rows.stableSort
        (rowLe (keyIdxs (taggedNorm1 df1 df2) (sortColsOf df1 df2 keys))))).height =
      df1.height := by
    show ((taggedNorm1 df1 df2).rows.stableSort
      (rowLe (keyIdxs (taggedNorm1 df1 df2) (sortColsOf df1 df2 keys)))).length = df1.height
    rw [(List.stableSort_perm (taggedNorm1 df1 df2).rows _).length_eq]
    exact taggedNorm1_height df1 df2
  have hh2 : (Table.mk (taggedNorm2 df1 df2).header
      ((taggedNorm2 df1 df2).rows.stableSort
        (rowLe (keyIdxs (taggedNorm2 df1 df2) (sortColsOf df1 df2 keys))))).height =
      df2.height := by
    show ((taggedNorm2 df1 df2).rows.stableSort
      (rowLe (keyIdxs (taggedNorm2 df1 df2) (sortColsOf df1 df2 keys)))).length = df2.height
    rw [(List.stableSort_perm (taggedNorm2 df1 df2).rows _).length_eq]
    exact taggedNorm2_height df1 df2
  unfold executeComparison
  rw [if_neg (not_not_intro hc)]
  have hcond : (Table.mk (taggedNorm1 df1 df2).header
      ((taggedNorm1 df1 df2).rows.stableSort
        (rowLe (keyIdxs (taggedNorm1 df1 df2) (sortColsOf df1 df2 keys))))).height ≠
      (Table.mk (taggedNorm2 df1 df2).header
      ((taggedNorm2 df1 df2).rows.stableSort
        (rowLe (keyIdxs (taggedNorm2 df1 df2) (sortColsOf df1 df2 keys))))).height := by
    rw [hh1, hh2]
    exact hne
  simp only [halign]
  rw [if_pos hcond, hh1, hh2]

/-- Witness for C5 at concrete inputs: a two-row table against a one-row
table with the same single column yields the size mismatch carrying (2,1). -/
theorem c5_size_mismatch_witness :
    executeComparison
      (Table.mk [("id", .int)] [[some (.vInt 1)], [some (.vInt 2)]])
      (Table.mk [("id", .int)] [[some (.vInt 1)]]) ["id"] = .sizeMismatch 2 1 :=
  c5_size_mismatch
    (Table.mk [("id", .int)] [[some (.vInt 1)], [some (.vInt 2)]])
    (Table.mk [("id", .int)] [[some (.vInt 1)]]) ["id"]
    (by decide) (by decide) rfl (by decide) (by decide)

/-- C9 counterexample: a schema mismatch and a missing sort key both come
back with the same status string "error": the engine exposes three status
values, not four, and the sort-failure status is not distinguishable from
the structural-mismatch status by the status field. -/
theorem c9_status_counterexample :
    (executeComparison (Table.mk [("a", .int)] []) (Table.mk [("b", .int)] [])
      []).status = "error" ∧
    (executeComparison (Table.mk [("a", .int)] []) (Table.mk [("b", .int)] [])
      []).isStructMismatch = true ∧
    (executeComparison (Table.mk [("a", .int)] [[some (.vInt 1)]])
      (Table.mk [("a", .int)] [[some (.vInt 1)]]) ["zz"]).status = "error" ∧
    (executeComparison (Table.mk [("a", .int)] [[some (.vInt 1)]])
      (Table.mk [("a", .int)] [[some (.vInt 1)]]) ["zz"]).isSortFailure = true := by
  refine ⟨by decide, by decide, by decide, by decide⟩

/-- C9 (amended): every comparison returns exactly one of three
pairwise-distinct status strings — "success", "error", "size_error"; a
requested key column absent from the first table yields the sort-failure
outcome, whose status string "error" is shared with the structural
mismatch; and schema-valid, size-matched tables always yield "success",
divergence being read from the diff list rather than the status. -/
theorem c9_status_amended (df1 df2 : Table) (keys : List String) :
    ((executeComparison df1 df2 keys).status = "success" ∨
     (executeComparison df1 df2 keys).status = "error" ∨
     (executeComparison df1 df2 keys).status = "size_error") ∧
    (df1.wf → df2.wf → df1.names.toFinset = df2.names.toFinset →
      (∃ k ∈ keys, k ∉ df1.names ∧ k ≠ tagNameA) →
      ∃ e, executeComparison df1 df2 keys = .sortFailure e ∧
        (executeComparison df1 df2 keys).status = "error") ∧
    (df1.wf → df2.wf → df1.names.toFinset = df2.names.toFinset →
      (∀ k ∈ keys, k ∈ df1.names ∧ k ∈ df2.names) → df1.height = df2.height →
      ∃ r, executeComparison df1 df2 keys = .success r ∧
        (executeComparison df1 df2 keys).status = "success") := by
  refine ⟨?_, ?_, ?_⟩
  · cases h : executeComparison df1 df2 keys <;>
      simp only [CompResult.status] <;> decide
  · intro w1 w2 hsets ⟨k, hk, hnot, hne⟩
    have e1 : dataColsA df1 = df1.names.toFinset := dataColsA_eq df1 w1.2.1
    have e2 : dataColsB df2 = df2.names.toFinset := dataColsB_eq df2 w2.2.2
    have hc : dataColsA df1 = dataColsB df2 := by rw [e1, e2, hsets]
    have hkeys : keys ≠ [] := by
      intro hcontra
      rw [hcontra] at hk
      simp at hk
    have hcols : sortColsOf df1 df2 keys = keys := by
      unfold sortColsOf
      rw [if_neg hkeys]
    have hmiss : k ∉ (taggedNorm1 df1 df2).names := by
      rw [taggedNorm1_names]
      simp only [List.mem_cons, not_or]
      exact ⟨hne, hnot⟩
    obtain ⟨e, he⟩ := (sortTable_isError_iff (taggedNorm1 df1 df2)
      (sortColsOf df1 df2 keys)).mpr ⟨k, by rw [hcols]; exact hk, hmiss⟩
    have halign : alignTables df1 df2 keys = .error e := by
      unfold alignTables
      rw [he]
    refine ⟨e, ?_, ?_⟩ <;>
      · unfold executeComparison
        rw [if_neg (not_not_intro hc)]
        simp [halign, CompResult.status]
  · intro w1 w2 hsets hpresent hheights
    have e1 : dataColsA df1 = df1.names.toFinset := dataColsA_eq df1 w1.2.1
    have e2 : dataColsB df2 = df2.names.toFinset := dataColsB_eq df2 w2.2.2
    have hc : dataColsA df1 = dataColsB df2 := by rw [e1, e2, hsets]
    have hsub : ∀ x ∈ df1.names, x ∈ df2.names := fun x hx =>
      List.mem_toFinset.mp (hsets ▸ List.mem_toFinset.mpr hx)
    have h1 := sortCols_subset1 df1 df2 keys w1 (fun k hk => (hpresent k hk).1)
    have h2 := sortCols_subset2 df1 df2 keys w1 hsub (fun k hk => (hpresent k hk).2)
    have halign := alignTables_ok df1 df2 keys h1 h2
    have hh1 : (Table.mk (taggedNorm1 df1 df2).header
        ((taggedNorm1 df1 df2).rows.stableSort
          (rowLe (keyIdxs (taggedNorm1 df1 df2) (sortColsOf df1 df2 keys))))).height =
        df1.height := by
      show ((taggedNorm1 df1 df2).rows.stableSort
        (rowLe (keyIdxs (taggedNorm1 df1 df2) (sortColsOf df1 df2 keys)))).length = df1.height
      rw [(List.stableSort_perm (taggedNorm1 df1 df2).rows _).length_eq]
      exact taggedNorm1_height df1 df2
    have hh2 : (Table.mk (taggedNorm2 df1 df2).header
        ((taggedNorm2 df1 df2).rows.stableSort
          (rowLe (keyIdxs (taggedNorm2 df1 df2) (sortColsOf df1 df2 keys))))).height =
        df2.height := by
      show ((taggedNorm2 df1 df2).rows.stableSort
        (rowLe (keyIdxs (taggedNorm2 df1 df2) (sortColsOf df1 df2 keys)))).length = df2.height
      rw [(List.stableSort_perm (taggedNorm2 df1 df2).rows _).length_eq]
      exact taggedNorm2_height df1 df2
    have hcond : ¬((Table.mk (taggedNorm1 df1 df2).header
        ((taggedNorm1 df1 df2).rows.stableSort
          (rowLe (keyIdxs (taggedNorm1 df1 df2) (sortColsOf df1 df2 keys))))).height ≠
        (Table.mk (taggedNorm2 df1 df2).header
        ((taggedNorm2 df1 df2).rows.stableSort
          (rowLe (keyIdxs (taggedNorm2 df1 df2) (sortColsOf df1 df2 keys))))).height) := by
      rw [hh1, hh2]
      exact not_not_intro hheights
    refine ⟨detectDiffs
      (Table.mk (taggedNorm1 df1 df2).header
        ((taggedNorm1 df1 df2).rows.stableSort
          (rowLe (keyIdxs (taggedNorm1 df1 df2) (sortColsOf df1 df2 keys)))))
      (Table.mk (taggedNorm2 df1 df2).header
        ((taggedNorm2 df1 df2).rows.stableSort
          (rowLe (keyIdxs (taggedNorm2 df1 df2) (sortColsOf df1 df2 keys)))))
      keys, ?_, ?_⟩ <;>
      · unfold executeComparison
        rw [if_neg (not_not_intro hc)]
        simp only [halign]
        rw [if_neg hcond] <;> simp [CompResult.status]

/-- Witness for C9 at a concrete input: a requested key column that exists
in neither table yields the sort-failure outcome with status "error". -/
theorem c9_status_amended_witness :
    ∃ e, executeComparison (Table.mk [("a", .int)] [[some (.vInt 1)]])
      (Table.mk [("a", .int)] [[some (.vInt 1)]]) ["zz"] = .sortFailure e ∧
      (executeComparison (Table.mk [("a", .int)] [[some (.vInt 1)]])
        (Table.mk [("a", .int)] [[some (.vInt 1)]]) ["zz"]).status = "error" :=
  (c9_status_amended (Table.mk [("a", .int)] [[some (.vInt 1)]])
    (Table.mk [("a", .int)] [[some (.vInt 1)]]) ["zz"]).2.1
    (by decide) (by decide) rfl ⟨"zz", by decide, by decide, by decide⟩

theorem count_true_eq_countP_range (g : List Bool) :
    g.count true = (List.range g.length).countP (fun i => g.getD i false) := by
  induction g with
  | nil => simp
  | cons b g ih =>
    rw [List.length_cons, List.range_succ_eq_map, List.countP_cons, List.countP_map,
      List.count_cons]
    have hcomp : ((fun i => (b :: g).getD i false) ∘ Nat.succ) =
        (fun i => g.getD i false) := by
      funext i
      simp [Function.comp, List.getD_cons_succ]
    rw [hcomp, ← ih]
    cases b <;> simp

theorem zipWith_or_getD (xs ys : List Bool) (i : Nat) :
    (List.zipWith or xs ys).getD i false =
      ((List.zipWith or xs ys).getD i false) := rfl

theorem zipWith_or_getD_lt (xs ys : List Bool) (i : Nat)
    (h1 : i < xs.length) (h2 : i < ys.length) :
    (List.zipWith or xs ys).getD i false = (xs.getD i false || ys.getD i false) := by
  induction xs generalizing ys i with
  | nil => simp at h1
  | cons x xs ih =>
    cases ys with
    | nil => simp at h2
    | cons y ys =>
      cases i with
      | zero => simp
      | succ n =>
        simp only [List.zipWith_cons_cons, List.getD_cons_succ]
        simp only [List.length_cons, Nat.succ_lt_succ_iff] at h1 h2
        exact ih ys n h1 h2

theorem foldl_orMasks_char (ms : List (List Bool)) (g : List Bool) (h : Nat)
    (hg : g.length = h) (hms : ∀ m ∈ ms, m.length = h) :
    ∃ g2, ms.foldl orMasks (some g) = some g2 ∧ g2.length = h ∧
      ∀ i, g2.getD i false = (g.getD i false || ms.any (fun m => m.getD i false)) := by
  induction ms generalizing g with
  | nil => exact ⟨g, rfl, hg, by simp⟩
  | cons m ms ih =>
    have hm : m.length = h := hms m (by simp)
    have hzip : (List.zipWith or g m).length = h := by
      rw [List.length_zipWith, hg, hm]
      simp
    obtain ⟨g2, hfold, hlen, hchar⟩ :=
      ih (List.zipWith or g m) hzip (fun m2 hm2 => hms m2 (by simp [hm2]))
    refine ⟨g2, ?_, hlen, ?_⟩
    · simpa [orMasks] using hfold
    · intro i
      rw [hchar i]
      by_cases hi : i < h
      · rw [zipWith_or_getD_lt g m i (by rw [hg]; exact hi) (by rw [hm]; exact hi)]
        simp [Bool.or_assoc]
      · have hge := Nat.le_of_not_lt hi
        rw [List.getD_eq_default _ _ (by rw [hzip]; exact hge),
          List.getD_eq_default _ _ (by rw [hg]; exact hge)]
        simp [List.any_cons,
          List.getD_eq_default m false (show m.length ≤ i by rw [hm]; exact hge),
          List.getElem?_eq_none (show m.length ≤ i by rw [hm]; exact hge)]

theorem sortTable_ok_inv (t : Table) (keys : List String) (s : Table)
    (h : sortTable t keys = .ok s) :
    s.header = t.header ∧ s.rows = t.rows.stableSort (rowLe (keyIdxs t keys)) := by
  unfold sortTable at h
  rcases hf : keys.find? (fun k => decide (k ∉ t.names)) with _ | k
  · rw [hf] at h
    injection h with h2
    rw [← h2]
    exact ⟨rfl, rfl⟩
  · rw [hf] at h
    simp at h

theorem alignTables_ok_inv (df1 df2 : Table) (keys : List String) (s1 s2 : Table)
    (h : alignTables df1 df2 keys = .ok (s1, s2)) :
    s1.header = (taggedNorm1 df1 df2).header ∧
    s2.header = (taggedNorm2 df1 df2).header ∧
    s1.rows = (taggedNorm1 df1 df2).rows.stableSort
      (rowLe (keyIdxs (taggedNorm1 df1 df2) (sortColsOf df1 df2 keys))) ∧
    s2.rows = (taggedNorm2 df1 df2).rows.stableSort
      (rowLe (keyIdxs (taggedNorm2 df1 df2) (sortColsOf df1 df2 keys))) := by
  unfold alignTables at h
  rcases h1 : sortTable (taggedNorm1 df1 df2) (sortColsOf df1 df2 keys) with e | t1
  · rw [h1] at h
    simp at h
  · simp only [h1] at h
    rcases h2 : sortTable (taggedNorm2 df1 df2) (sortColsOf df1 df2 keys) with e | t2
    · rw [h2] at h
      simp at h
    · simp only [h2] at h
      have hpair : t1 = s1 ∧ t2 = s2 := by
        injection h with hp
        exact ⟨congrArg Prod.fst hp, congrArg Prod.snd hp⟩
      obtain ⟨ha, hb⟩ := hpair
      obtain ⟨i1, i2⟩ := sortTable_ok_inv _ _ _ h1
      obtain ⟨j1, j2⟩ := sortTable_ok_inv _ _ _ h2
      rw [← ha, ← hb]
      exact ⟨i1, j1, i2, j2⟩

theorem Table.names_of_header_eq {s t : Table} (h : s.header = t.header) :
    s.names = t.names := by
  unfold Table.names
  rw [h]

theorem col_length_of_mem (t : Table) (c : String) (hc : c ∈ t.names) :
    (t.col c).length = t.height := by
  unfold Table.col
  rcases hf : idxOf? c t.names with _ | i
  · have := (idxOf?_isSome_iff c t.names).mpr hc
    rw [hf] at this
    simp at this
  · simp [Table.height]

theorem any_map_general {α β : Type} (f : α → β) (l : List α) (p : β → Bool) :
    (l.map f).any p = l.any (fun a => p (f a)) := by
  induction l with
  | nil => rfl
  | cons a l ih => simp [List.any_cons, ih]

theorem detectDiffs_global_eq (s1 s2 : Table) :
    ((checkColsOf s1).map (fun c => (c, maskFor s1 s2 c))).foldl
      (fun acc cm => orMasks acc cm.2) none = globalMaskOf s1 s2 := by
  rw [List.foldl_map]
  rfl

theorem globalMask_char (s1 s2 : Table)
    (hlen : ∀ c ∈ checkColsOf s1, (maskFor s1 s2 c).length = s1.height) :
    (checkColsOf s1 = [] ∧ globalMaskOf s1 s2 = none) ∨
    (∃ g2, globalMaskOf s1 s2 = some g2 ∧ g2.length = s1.height ∧
      ∀ i, g2.getD i false =
        (checkColsOf s1).any (fun c => (maskFor s1 s2 c).getD i false)) := by
  rcases hcc : checkColsOf s1 with _ | ⟨c0, cs⟩
  · left
    refine ⟨rfl, ?_⟩
    unfold globalMaskOf
    rw [hcc]
    rfl
  · right
    have h0 : (maskFor s1 s2 c0).length = s1.height := hlen c0 (by rw [hcc]; simp)
    obtain ⟨g2, hfold, hl, hchar⟩ := foldl_orMasks_char (cs.map (maskFor s1 s2))
      (maskFor s1 s2 c0) s1.height h0 (by
        intro m hm
        rw [List.mem_map] at hm
        obtain ⟨c, hcm, rfl⟩ := hm
        exact hlen c (by rw [hcc]; simp [hcm]))
    refine ⟨g2, ?_, hl, ?_⟩
    · unfold globalMaskOf
      rw [hcc, List.foldl_cons]
      show cs.foldl (fun acc c => orMasks acc (maskFor s1 s2 c))
        (some (maskFor s1 s2 c0)) = some g2
      rw [← List.foldl_map (maskFor s1 s2) orMasks cs (some (maskFor s1 s2 c0))]
      exact hfold
    · intro i
      rw [hchar i, List.any_cons, any_map_general]

theorem getD_false_of_count_zero (m : List Bool) (hm : m.count true = 0) (i : Nat) :
    m.getD i false = false := by
  by_cases hi : i < m.length
  · rw [List.getD_eq_getElem m false hi]
    have hmem : true ∉ m := List.count_eq_zero.mp hm
    cases hmi : m.get ⟨i, hi⟩
    · exact hmi
    · have hmi2 : m[i] = true := hmi
      exact absurd (hmi2 ▸ List.getElem_mem hi) hmem
  · exact List.getD_eq_default _ _ (Nat.le_of_not_lt hi)

theorem executeComparison_success_inv (df1 df2 : Table) (keys : List String)
    (r : SuccessData) (h : executeComparison df1 df2 keys = .success r) :
    dataColsA df1 = dataColsB df2 ∧
    ∃ s1 s2, alignTables df1 df2 keys = .ok (s1, s2) ∧ s1.height = s2.height ∧
      r = detectDiffs s1 s2 keys := by
  unfold executeComparison at h
  by_cases hc : dataColsA df1 ≠ dataColsB df2
  · rw [if_pos hc] at h
    simp at h
  · rw [if_neg hc] at h
    refine ⟨not_not.mp hc, ?_⟩
    rcases halign : alignTables df1 df2 keys with e | p
    · rw [halign] at h
      simp at h
    · obtain ⟨s1, s2⟩ := p
      simp only [halign] at h
      by_cases hh : s1.height ≠ s2.height
      · rw [if_pos hh] at h
        simp at h
      · rw [if_neg hh] at h
        injection h with hr
        exact ⟨s1, s2, rfl, not_not.mp hh, hr.symm⟩

theorem success_mask_lengths (df1 df2 : Table) (keys : List String) (s1 s2 : Table)
    (hc : dataColsA df1 = dataColsB df2)
    (halign : alignTables df1 df2 keys = .ok (s1, s2))
    (hh : s1.height = s2.height) :
    ∀ c ∈ checkColsOf s1, (maskFor s1 s2 c).length = s1.height := by
  intro c hcmem
  obtain ⟨h1hdr, h2hdr, -, -⟩ := alignTables_ok_inv df1 df2 keys s1 s2 halign
  have hn1 : s1.names = tagNameA :: df1.names := by
    rw [Table.names_of_header_eq h1hdr, taggedNorm1_names]
  have hn2 : s2.names = tagNameB :: df2.names := by
    rw [Table.names_of_header_eq h2hdr, taggedNorm2_names]
  have hc1 : c ∈ s1.names := List.mem_of_mem_filter hcmem
  have hcA : c ∈ dataColsA df1 := by
    unfold dataColsA
    rw [List.mem_toFinset, withRowIndex_names]
    unfold checkColsOf at hcmem
    rw [hn1] at hcmem
    exact hcmem
  have hcB : c ∈ dataColsB df2 := by
    rw [← hc]
    exact hcA
  have hc2 : c ∈ s2.names := by
    unfold dataColsB at hcB
    rw [List.mem_toFinset, withRowIndex_names] at hcB
    rw [hn2]
    exact List.mem_of_mem_filter hcB
  unfold maskFor colMask
  rw [List.length_zipWith, col_length_of_mem s1 c hc1, col_length_of_mem s2 c hc2, ← hh]
  simp [Table.height]

theorem detectDiffs_rwe (s1 s2 : Table) (keys : List String)
    (hlen : ∀ c ∈ checkColsOf s1, (maskFor s1 s2 c).length = s1.height) :
    (detectDiffs s1 s2 keys).rowsWithError =
      (List.range s1.height).countP
        (fun i => (checkColsOf s1).any (fun c => (maskFor s1 s2 c).getD i false)) := by
  have hfield : (detectDiffs s1 s2 keys).rowsWithError =
      match globalMaskOf s1 s2 with
      | some g => if 0 < g.count true then g.count true else 0
      | none => 0 := by
    simp only [detectDiffs]
    rw [detectDiffs_global_eq]
  rcases globalMask_char s1 s2 hlen with ⟨hnil, hnone⟩ | ⟨g2, hsome, hlen2, hchar⟩
  · rw [hfield]
    simp [hnone, hnil]
  · rw [hfield]
    simp only [hsome]
    have hcount : g2.count true = (List.range s1.height).countP
        (fun i => (checkColsOf s1).any (fun c => (maskFor s1 s2 c).getD i false)) := by
      rw [count_true_eq_countP_range, hlen2]
      refine List.countP_congr ?_
      intro i hi
      rw [hchar i]
    by_cases hpos : 0 < g2.count true
    · rw [if_pos hpos, hcount]
    · rw [if_neg hpos, ← hcount, Nat.eq_zero_of_not_pos hpos]

theorem isSuccess_exists (res : CompResult) (h : res.isSuccess = true) :
    ∃ r, res = .success r := by
  cases res with
  | success r => exact ⟨r, rfl⟩
  | structMismatch d => simp [CompResult.isSuccess] at h
  | sortFailure e => simp [CompResult.isSuccess] at h
  | sizeMismatch a b => simp [CompResult.isSuccess] at h

/-- C7: for every successful comparison, the reported rows-with-error count
equals the number of aligned positions at which the logical OR of all
per-data-column mismatch masks is set — the number of rows where at least
one data column differs; when no column has any mismatch this count is
zero (the count of an all-false OR is zero). -/
theorem c7_rows_with_error (df1 df2 : Table) (keys : List String) (r : SuccessData)
    (h : executeComparison df1 df2 keys = .success r) :
    ∃ s1 s2, alignTables df1 df2 keys = .ok (s1, s2) ∧
      r = detectDiffs s1 s2 keys ∧ r.totalRows = s1.height ∧
      r.rowsWithError = (List.range s1.height).countP
        (fun i => (checkColsOf s1).any (fun c => (maskFor s1 s2 c).getD i false)) := by
  obtain ⟨hc, s1, s2, halign, hh, hr⟩ := executeComparison_success_inv df1 df2 keys r h
  have hlen := success_mask_lengths df1 df2 keys s1 s2 hc halign hh
  refine ⟨s1, s2, halign, hr, ?_, ?_⟩
  · rw [hr]
    simp [detectDiffs]
  · rw [hr]
    exact detectDiffs_rwe s1 s2 keys hlen

/-- Witness for C7 at a concrete input: a one-column key match with a
single differing row. -/
theorem c7_rows_with_error_witness :
    ∃ r s1 s2, executeComparison
        (Table.mk [("id", .int), ("amt", .int)]
          [[some (.vInt 1), some (.vInt 10)], [some (.vInt 2), some (.vInt 20)]])
        (Table.mk [("id", .int), ("amt", .int)]
          [[some (.vInt 2), some (.vInt 20)], [some (.vInt 1), some (.vInt 11)]])
        ["id"] = .success r ∧
      alignTables
        (Table.mk [("id", .int), ("amt", .int)]
          [[some (.vInt 1), some (.vInt 10)], [some (.vInt 2), some (.vInt 20)]])
        (Table.mk [("id", .int), ("amt", .int)]
          [[some (.vInt 2), some (.vInt 20)], [some (.vInt 1), some (.vInt 11)]])
        ["id"] = .ok (s1, s2) ∧
      r.rowsWithError = (List.range s1.height).countP
        (fun i => (checkColsOf s1).any (fun c => (maskFor s1 s2 c).getD i false)) := by
  obtain ⟨r, hec⟩ := isSuccess_exists (executeComparison
    (Table.mk [("id", .int), ("amt", .int)]
      [[some (.vInt 1), some (.vInt 10)], [some (.vInt 2), some (.vInt 20)]])
    (Table.mk [("id", .int), ("amt", .int)]
      [[some (.vInt 2), some (.vInt 20)], [some (.vInt 1), some (.vInt 11)]])
    ["id"]) (by decide)
  obtain ⟨s1, s2, halign, -, -, hrwe⟩ := c7_rows_with_error _ _ ["id"] r hec
  exact ⟨r, s1, s2, hec, halign, hrwe⟩

theorem detectDiffs_fullrows_pos (s1 s2 : Table) (keys : List String) (g : List Bool)
    (hg : globalMaskOf s1 s2 = some g) (hpos : 0 < g.count true) :
    (detectDiffs s1 s2 keys).fullRowsA =
      some ⟨s1.header, filterMask s1.rows g⟩ ∧
    (detectDiffs s1 s2 keys).fullRowsB =
      some ⟨s2.header, filterMask s2.rows g⟩ := by
  constructor <;>
    · simp only [detectDiffs, detectDiffs_global_eq, hg]
      rw [if_pos hpos]

theorem detectDiffs_colsdiff_empty (s1 s2 : Table) (keys : List String)
    (hlen : ∀ c ∈ checkColsOf s1, (maskFor s1 s2 c).length = s1.height)
    (hempty : (detectDiffs s1 s2 keys).colsDiff = []) :
    (detectDiffs s1 s2 keys).fullRowsA = none ∧
    (detectDiffs s1 s2 keys).fullRowsB = none ∧
    (detectDiffs s1 s2 keys).rowsWithError = 0 := by
  have hall : ∀ c ∈ checkColsOf s1, (maskFor s1 s2 c).count true = 0 := by
    intro c hcm
    have hwd : ((checkColsOf s1).map (fun c => (c, maskFor s1 s2 c))).filter
        (fun cm => decide (0 < cm.2.count true)) = [] := by
      have h2 := hempty
      simp only [detectDiffs] at h2
      exact List.map_eq_nil.mp h2
    have hmem : (c, maskFor s1 s2 c) ∈
        (checkColsOf s1).map (fun c => (c, maskFor s1 s2 c)) :=
      List.mem_map.mpr ⟨c, hcm, rfl⟩
    have hnot := List.filter_eq_nil.mp hwd _ hmem
    simp only [decide_eq_true_eq] at hnot
    exact Nat.eq_zero_of_not_pos hnot
  rcases globalMask_char s1 s2 hlen with ⟨hnil, hnone⟩ | ⟨g2, hsome, hlen2, hchar⟩
  · refine ⟨?_, ?_, ?_⟩ <;> simp [detectDiffs, detectDiffs_global_eq, hnone]
  · have hg0 : g2.count true = 0 := by
      rw [count_true_eq_countP_range]
      refine List.countP_eq_zero.mpr ?_
      intro i hi
      rw [hchar i]
      intro hany
      rw [List.any_eq_true] at hany
      obtain ⟨c, hcm, hgd⟩ := hany
      rw [getD_false_of_count_zero _ (hall c hcm) i] at hgd
      exact absurd hgd (by simp)
    have hnpos : ¬ 0 < g2.count true := by
      rw [hg0]
      simp
    refine ⟨?_, ?_, ?_⟩ <;>
      · simp only [detectDiffs, detectDiffs_global_eq, hsome]
        rw [if_neg hnpos]

/-- C10 (amended): for every successful comparison, whenever the global
mismatch mask has at least one set bit, the result's two full-row subsets
equal table A and table B filtered to the set positions with all columns
retained (both tag columns included); when the mismatched-column list is
empty the subsets are absent (null, not empty tables) and the result is
still a success with zero rows-with-error. -/
theorem c10_fullrows_amended (df1 df2 : Table) (keys : List String)
    (r : SuccessData) (h : executeComparison df1 df2 keys = .success r) :
    ∃ s1 s2, alignTables df1 df2 keys = .ok (s1, s2) ∧
      r = detectDiffs s1 s2 keys ∧
      (∀ g, globalMaskOf s1 s2 = some g → 0 < g.count true →
        r.fullRowsA = some ⟨s1.header, filterMask s1.rows g⟩ ∧
        r.fullRowsB = some ⟨s2.header, filterMask s2.rows g⟩) ∧
      (r.colsDiff = [] →
        r.fullRowsA = none ∧ r.fullRowsB = none ∧ r.rowsWithError = 0) := by
  obtain ⟨hc, s1, s2, halign, hh, hr⟩ := executeComparison_success_inv df1 df2 keys r h
  have hlen := success_mask_lengths df1 df2 keys s1 s2 hc halign hh
  refine ⟨s1, s2, halign, hr, ?_, ?_⟩
  · intro g hg hpos
    rw [hr]
    exact detectDiffs_fullrows_pos s1 s2 keys g hg hpos
  · intro hempty
    rw [hr]
    refine detectDiffs_colsdiff_empty s1 s2 keys hlen ?_
    rw [← hr]
    exact hempty

/-- Witness for C10 at a concrete input: comparing a table against itself
succeeds with an empty mismatched-column list, absent full-row subsets and
zero rows-with-error. -/
theorem c10_fullrows_amended_witness :
    ∃ r, executeComparison (Table.mk [("a", .int)] [[some (.vInt 1)]])
        (Table.mk [("a", .int)] [[some (.vInt 1)]]) [] = .success r ∧
      r.fullRowsA = none ∧ r.fullRowsB = none ∧ r.rowsWithError = 0 := by
  obtain ⟨r, hec⟩ := isSuccess_exists (executeComparison
    (Table.mk [("a", .int)] [[some (.vInt 1)]])
    (Table.mk [("a", .int)] [[some (.vInt 1)]]) []) (by decide)
  obtain ⟨s1, s2, halign, hr, hpos, hempty⟩ :=
    c10_fullrows_amended _ _ [] r hec
  have hcd : r.colsDiff = [] := by
    have h0 : resultColsDiff (executeComparison
        (Table.mk [("a", .int)] [[some (.vInt 1)]])
        (Table.mk [("a", .int)] [[some (.vInt 1)]]) []) = [] := by decide
    rw [hec] at h0
    simpa [resultColsDiff] using h0
  obtain ⟨ha, hb, hz⟩ := hempty hcd
  exact ⟨r, hec, ha, hb, hz⟩

/-- C10 counterexample: when tables are identical the claim demands the
(empty) filtered tables as subsets, but the engine returns null for both
full-row subsets of a diff-free success. -/
theorem c10_fullrows_counterexample :
    (executeComparison (Table.mk [("a", .int)] [[some (.vInt 1)]])
      (Table.mk [("a", .int)] [[some (.vInt 1)]]) []).isSuccess = true ∧
    resultColsDiff (executeComparison (Table.mk [("a", .int)] [[some (.vInt 1)]])
      (Table.mk [("a", .int)] [[some (.vInt 1)]]) []) = [] ∧
    resultFullA (executeComparison (Table.mk [("a", .int)] [[some (.vInt 1)]])
      (Table.mk [("a", .int)] [[some (.vInt 1)]]) []) = none ∧
    resultFullB (executeComparison (Table.mk [("a", .int)] [[some (.vInt 1)]])
      (Table.mk [("a", .int)] [[some (.vInt 1)]]) []) = none := by
  refine ⟨by decide, by decide, by decide, by decide⟩

theorem idxOf?_cons_ne (s name : String) (l : List String) (h : s ≠ name) :
    idxOf? name (s :: l) = (idxOf? name l).map (fun i => i + 1) := by
  show (if s = name then some 0 else (idxOf? name l).map (fun i => i + 1)) = _
  rw [if_neg h]

theorem idxOf?_get_of_nodup (l : List String) (hnd : l.Nodup) (j : Nat)
    (hj : j < l.length) : idxOf? (l.get ⟨j, hj⟩) l = some j := by
  induction l generalizing j with
  | nil => simp at hj
  | cons s rest ih =>
    rcases List.nodup_cons.mp hnd with ⟨hs, hrest⟩
    cases j with
    | zero => simp [idxOf?]
    | succ m =>
      have hm : m < rest.length := by simpa using hj
      have hne : s ≠ rest.get ⟨m, hm⟩ := by
        intro hcontra
        exact hs (hcontra ▸ List.get_mem rest m hm)
      rw [show (s :: rest).get ⟨m + 1, hj⟩ = rest.get ⟨m, hm⟩ from rfl,
        idxOf?_cons_ne s _ rest hne, ih hrest m hm]
      rfl

theorem col_eq_map (t : Table) (c : String) (i : Nat)
    (hi : idxOf? c t.names = some i) :
    t.col c = t.rows.map (fun r => r.getD i none) := by
  unfold Table.col
  rw [hi]

theorem neMissing_self (a : Cell) : neMissing a a = false := by
  cases a <;> simp [neMissing]

theorem colMask_self_count (xs : List Cell) : (colMask xs xs).count true = 0 := by
  unfold colMask
  rw [List.count_eq_zero]
  intro hmem
  induction xs with
  | nil => simp at hmem
  | cons x xs ih =>
    rw [List.zipWith_cons_cons, neMissing_self, List.mem_cons] at hmem
    rcases hmem with h | h
    · exact absurd h.symm (by simp)
    · exact ih h

theorem keyProj_cons (idxs : List Nat) (hpos : ∀ i ∈ idxs, 1 ≤ i)
    (x : Cell) (l : List Cell) :
    keyProj idxs (x :: l) = keyProj (idxs.map (fun i => i - 1)) l := by
  unfold keyProj
  rw [List.map_map]
  refine List.map_congr_left ?_
  intro i hi
  have h1 : 1 ≤ i := hpos i hi
  have : i = (i - 1) + 1 := by omega
  rw [this, List.getD_cons_succ]
  rfl

theorem map_keyProj_tagged (tagFn : Nat → Cell) (g0 : Cell → Cell)
    (gs : List (Cell → Cell)) (idxs : List Nat) (hpos : ∀ i ∈ idxs, 1 ≤ i)
    (ns : List Nat) (rows : List (List Cell)) :
    ((List.zipWith (fun i r => tagFn i :: r) ns rows).map
        (applyTs (g0 :: gs))).map (keyProj idxs) =
      (List.zipWith (fun i r => r) ns rows).map
        (fun r => keyProj (idxs.map (fun i => i - 1)) (applyTs gs r)) := by
  induction rows generalizing ns with
  | nil => cases ns <;> rfl
  | cons r rs ih =>
    cases ns with
    | nil => rfl
    | cons n ns2 =>
      simp only [List.zipWith_cons_cons, List.map_cons]
      congr 1
      · rw [show applyTs (g0 :: gs) (tagFn n :: r) = g0 (tagFn n) :: applyTs gs r from rfl]
        exact keyProj_cons idxs hpos _ _
      · exact ih ns2

theorem zipWith_snd_of_le (ns : List Nat) (rows : List (List Cell))
    (h : rows.length ≤ ns.length) :
    List.zipWith (fun i r => r) ns rows = rows := by
  induction rows generalizing ns with
  | nil => cases ns <;> rfl
  | cons r rs ih =>
    cases ns with
    | nil => simp at h
    | cons n ns2 =>
      simp only [List.zipWith_cons_cons]
      rw [ih ns2 (by simpa using h)]

theorem cmpRow_antisymm (u v : List Cell)
    (h1 : leOfCmp (cmpRow u v) = true) (h2 : leOfCmp (cmpRow v u) = true) :
    u = v := by
  rw [leOfCmp_true_iff] at h1 h2
  rw [cmpRow_swap u v] at h2
  rcases h : cmpRow u v with _ | _ | _
  · rw [h] at h2
    simp [Ordering.swap] at h2
  · exact (cmpRow_eq_iff u v).mp h
  · exact absurd h h1

theorem detectDiffs_colsdiff_of_all_zero (s1 s2 : Table) (keys : List String)
    (hall : ∀ c ∈ checkColsOf s1, (maskFor s1 s2 c).count true = 0) :
    (detectDiffs s1 s2 keys).colsDiff = [] := by
  simp only [detectDiffs]
  have hfilter : ((checkColsOf s1).map (fun c => (c, maskFor s1 s2 c))).filter
      (fun cm => decide (0 < cm.2.count true)) = [] := by
    refine List.filter_eq_nil.mpr ?_
    intro cm hcm
    rw [List.mem_map] at hcm
    obtain ⟨c, hc, rfl⟩ := hcm
    simp [hall c hc]
  rw [hfilter]
  rfl

theorem sortColsOf_nil_eq (df1 df2 : Table) (w1 : df1.wf) :
    sortColsOf df1 df2 [] = df1.names := by
  unfold sortColsOf
  rw [if_pos rfl, taggedNorm1_names, filter_ne_tag_cons _ _ w1.2.1]

theorem keyIdxs_eq_of_names_eq (df1 df2 : Table)
    (w1 : df1.wf) (w2 : df2.wf) (hnames : df1.names = df2.names) :
    keyIdxs (taggedNorm2 df1 df2) (sortColsOf df1 df2 []) =
      keyIdxs (taggedNorm1 df1 df2) (sortColsOf df1 df2 []) := by
  unfold keyIdxs
  refine List.map_congr_left ?_
  intro k hk
  rw [sortColsOf_nil_eq df1 df2 w1] at hk
  have hkA : tagNameA ≠ k := fun hcontra => w1.2.1 (hcontra ▸ hk)
  have hkB : tagNameB ≠ k := fun hcontra => w1.2.2 (hcontra ▸ hk)
  rw [taggedNorm1_names, taggedNorm2_names, idxOf?_cons_ne _ _ _ hkA,
    idxOf?_cons_ne _ _ _ hkB, ← hnames]

theorem keyIdxs_pos (df1 df2 : Table) (w1 : df1.wf) :
    ∀ i ∈ keyIdxs (taggedNorm1 df1 df2) (sortColsOf df1 df2 []), 1 ≤ i := by
  intro i hi
  unfold keyIdxs at hi
  rw [List.mem_map] at hi
  obtain ⟨k, hk, rfl⟩ := hi
  rw [sortColsOf_nil_eq df1 df2 w1] at hk
  have hkA : tagNameA ≠ k := fun hcontra => w1.2.1 (hcontra ▸ hk)
  rw [taggedNorm1_names, idxOf?_cons_ne _ _ _ hkA]
  have hsome := (idxOf?_isSome_iff k df1.names).mpr hk
  rcases hj : idxOf? k df1.names with _ | j
  · rw [hj] at hsome
    simp at hsome
  · simp

theorem aligned_cols_eq_of_perm (df1 df2 : Table)
    (w1 : df1.wf) (w2 : df2.wf)
    (hhdr : df1.header = df2.header)
    (hperm : df1.rows.Perm df2.rows)
    (s1 s2 : Table)
    (hs1h : s1.header = (taggedNorm1 df1 df2).header)
    (hs2h : s2.header = (taggedNorm2 df1 df2).header)
    (hs1r : s1.rows = (taggedNorm1 df1 df2).rows.stableSort
      (rowLe (keyIdxs (taggedNorm1 df1 df2) (sortColsOf df1 df2 []))))
    (hs2r : s2.rows = (taggedNorm2 df1 df2).rows.stableSort
      (rowLe (keyIdxs (taggedNorm2 df1 df2) (sortColsOf df1 df2 [])))) :
    ∀ c ∈ checkColsOf s1, s1.col c = s2.col c := by
  have hnames : df1.names = df2.names := by
    unfold Table.names
    rw [hhdr]
  have hK := sortColsOf_nil_eq df1 df2 w1
  have hkeyIdxs := keyIdxs_eq_of_names_eq df1 df2 w1 w2 hnames
  have hpos := keyIdxs_pos df1 df2 w1
  have hproj1 : (taggedNorm1 df1 df2).rows.map
      (keyProj (keyIdxs (taggedNorm1 df1 df2) (sortColsOf df1 df2 []))) =
      df1.rows.map (fun r =>
        keyProj ((keyIdxs (taggedNorm1 df1 df2) (sortColsOf df1 df2 [])).map
          (fun i => i - 1))
        (applyTs (df1.header.map (normGs df1 df2)) r)) := by
    have hrows : (taggedNorm1 df1 df2).rows =
        (List.zipWith (fun i r => some (Val.vInt (2 + Int.ofNat i)) :: r)
          (List.range df1.rows.length) df1.rows).map
          (applyTs (normGs df1 df2 (tagNameA, Dtype.int) ::
            df1.header.map (normGs df1 df2))) := rfl
    rw [hrows, map_keyProj_tagged (fun i => some (Val.vInt (2 + Int.ofNat i)))
      (normGs df1 df2 (tagNameA, Dtype.int)) (df1.header.map (normGs df1 df2))
      _ hpos (List.range df1.rows.length) df1.rows,
      zipWith_snd_of_le _ _ (by simp)]
  have hproj2 : (taggedNorm2 df1 df2).rows.map
      (keyProj (keyIdxs (taggedNorm1 df1 df2) (sortColsOf df1 df2 []))) =
      df2.rows.map (fun r =>
        keyProj ((keyIdxs (taggedNorm1 df1 df2) (sortColsOf df1 df2 [])).map
          (fun i => i - 1))
        (applyTs (df1.header.map (normGs df1 df2)) r)) := by
    have hrows : (taggedNorm2 df1 df2).rows =
        (List.zipWith (fun i r => some (Val.vInt (2 + Int.ofNat i)) :: r)
          (List.range df2.rows.length) df2.rows).map
          (applyTs (normGs df1 df2 (tagNameB, Dtype.int) ::
            df2.header.map (normGs df1 df2))) := rfl
    rw [hrows, map_keyProj_tagged (fun i => some (Val.vInt (2 + Int.ofNat i)))
      (normGs df1 df2 (tagNameB, Dtype.int)) (df2.header.map (normGs df1 df2))
      _ hpos (List.range df2.rows.length) df2.rows,
      zipWith_snd_of_le _ _ (by simp), hhdr]
  have htrans := fun a b c => rowLe_trans
    (keyIdxs (taggedNorm1 df1 df2) (sortColsOf df1 df2 [])) a b c
  have htotal := fun a b => rowLe_total
    (keyIdxs (taggedNorm1 df1 df2) (sortColsOf df1 df2 [])) a b
  have hsorted1 : (s1.rows.map
      (keyProj (keyIdxs (taggedNorm1 df1 df2) (sortColsOf df1 df2 [])))).Pairwise
      (fun u v => leOfCmp (cmpRow u v) = true) := by
    rw [hs1r]
    refine List.Pairwise.map _ ?_
      (List.sorted_stableSort htrans htotal (taggedNorm1 df1 df2).rows)
    intro a b hab
    exact hab
  have hsorted2 : (s2.rows.map
      (keyProj (keyIdxs (taggedNorm1 df1 df2) (sortColsOf df1 df2 [])))).Pairwise
      (fun u v => leOfCmp (cmpRow u v) = true) := by
    rw [hs2r, hkeyIdxs]
    refine List.Pairwise.map _ ?_
      (List.sorted_stableSort htrans htotal (taggedNorm2 df1 df2).rows)
    intro a b hab
    exact hab
  have hpermφ : (s1.rows.map
      (keyProj (keyIdxs (taggedNorm1 df1 df2) (sortColsOf df1 df2 [])))).Perm
      (s2.rows.map
      (keyProj (keyIdxs (taggedNorm1 df1 df2) (sortColsOf df1 df2 [])))) := by
    have p1 : s1.rows.Perm (taggedNorm1 df1 df2).rows := by
      rw [hs1r]
      exact List.stableSort_perm _ _
    have p2 : s2.rows.Perm (taggedNorm2 df1 df2).rows := by
      rw [hs2r]
      exact List.stableSort_perm _ _
    refine ((p1.map _).trans ?_).trans (p2.map _).symm
    rw [hproj1, hproj2]
    exact hperm.map _
  haveI : IsAntisymm (List Cell) (fun u v => leOfCmp (cmpRow u v) = true) :=
    ⟨cmpRow_antisymm⟩
  have hφeq : s1.rows.map
      (keyProj (keyIdxs (taggedNorm1 df1 df2) (sortColsOf df1 df2 []))) =
      s2.rows.map
      (keyProj (keyIdxs (taggedNorm1 df1 df2) (sortColsOf df1 df2 []))) :=
    List.eq_of_perm_of_sorted hpermφ hsorted1 hsorted2
  intro c hcmem
  have hs1names : s1.names = tagNameA :: df1.names := by
    rw [Table.names_of_header_eq hs1h, taggedNorm1_names]
  have hs2names : s2.names = tagNameB :: df2.names := by
    rw [Table.names_of_header_eq hs2h, taggedNorm2_names]
  have hcdata : c ∈ df1.names := by
    unfold checkColsOf at hcmem
    rw [hs1names, filter_ne_tag_cons _ _ w1.2.1] at hcmem
    exact hcmem
  obtain ⟨⟨j, hj⟩, hcget⟩ := List.mem_iff_get.mp hcdata
  have hidx : idxOf? c df1.names = some j := by
    rw [← hcget]
    exact idxOf?_get_of_nodup df1.names w1.1 j hj
  have hcA : tagNameA ≠ c := fun hcontra => w1.2.1 (hcontra ▸ hcdata)
  have hcB : tagNameB ≠ c := fun hcontra => w1.2.2 (hcontra ▸ hcdata)
  have hidx1 : idxOf? c s1.names = some (j + 1) := by
    rw [hs1names, idxOf?_cons_ne _ _ _ hcA, hidx]
    rfl
  have hidx2 : idxOf? c s2.names = some (j + 1) := by
    rw [hs2names, idxOf?_cons_ne _ _ _ hcB, ← hnames, hidx]
    rfl
  rw [col_eq_map s1 c (j + 1) hidx1, col_eq_map s2 c (j + 1) hidx2]
  have hcomp : ∀ r : List Cell,
      (keyProj (keyIdxs (taggedNorm1 df1 df2) (sortColsOf df1 df2 [])) r).getD j none =
        r.getD (j + 1) none := by
    intro r
    unfold keyProj
    rw [List.getD_eq_getElem?_getD, List.getElem?_map]
    have hKj : (sortColsOf df1 df2 [])[j]? = some c := by
      rw [hK, List.getElem?_eq_getElem hj]
      rw [show df1.names[j] = df1.names.get ⟨j, hj⟩ from rfl, hcget]
    unfold keyIdxs
    rw [List.getElem?_map, hKj]
    simp only [Option.map_some', Option.getD_some]
    rw [taggedNorm1_names, idxOf?_cons_ne _ _ _ hcA, hidx]
    rfl
  have hmap1 : s1.rows.map (fun r => r.getD (j + 1) none) =
      (s1.rows.map
        (keyProj (keyIdxs (taggedNorm1 df1 df2) (sortColsOf df1 df2 [])))).map
        (fun p => p.getD j none) := by
    rw [List.map_map]
    refine List.map_congr_left ?_
    intro r hr
    exact (hcomp r).symm
  have hmap2 : s2.rows.map (fun r => r.getD (j + 1) none) =
      (s2.rows.map
        (keyProj (keyIdxs (taggedNorm1 df1 df2) (sortColsOf df1 df2 [])))).map
        (fun p => p.getD j none) := by
    rw [List.map_map]
    refine List.map_congr_left ?_
    intro r hr
    exact (hcomp r).symm
  rw [hmap1, hmap2, hφeq]

/-- C3: two tables containing the same multiset of data rows over the same
schema, in possibly different physical order, compare with an empty key
list to a success result with an empty mismatched-column list and zero
rows-with-error. -/
theorem c3_order_independence (df1 df2 : Table)
    (w1 : df1.wf) (w2 : df2.wf)
    (hhdr : df1.header = df2.header)
    (hperm : df1.rows.Perm df2.rows) :
    ∃ r, executeComparison df1 df2 [] = .success r ∧
      r.colsDiff = [] ∧ r.rowsWithError = 0 := by
  have hnames : df1.names = df2.names := by
    unfold Table.names
    rw [hhdr]
  have hc : dataColsA df1 = dataColsB df2 := by
    rw [dataColsA_eq df1 w1.2.1, dataColsB_eq df2 w2.2.2, hnames]
  have hsub : ∀ x ∈ df1.names, x ∈ df2.names := fun x hx => hnames ▸ hx
  have h1 := sortCols_subset1 df1 df2 [] w1 (by simp)
  have h2 := sortCols_subset2 df1 df2 [] w1 hsub (by simp)
  have halign := alignTables_ok df1 df2 [] h1 h2
  obtain ⟨s1, s2, halign2, hs1h, hs2h, hs1r, hs2r⟩ :
      ∃ s1 s2, alignTables df1 df2 [] = .ok (s1, s2) ∧
        s1.header = (taggedNorm1 df1 df2).header ∧
        s2.header = (taggedNorm2 df1 df2).header ∧
        s1.rows = (taggedNorm1 df1 df2).rows.stableSort
          (rowLe (keyIdxs (taggedNorm1 df1 df2) (sortColsOf df1 df2 []))) ∧
        s2.rows = (taggedNorm2 df1 df2).rows.stableSort
          (rowLe (keyIdxs (taggedNorm2 df1 df2) (sortColsOf df1 df2 []))) :=
    ⟨_, _, halign, rfl, rfl, rfl, rfl⟩
  have hcols := aligned_cols_eq_of_perm df1 df2 w1 w2 hhdr hperm s1 s2
    hs1h hs2h hs1r hs2r
  have hh : s1.height = s2.height := by
    unfold Table.height
    rw [hs1r, hs2r, (List.stableSort_perm _ _).length_eq,
      (List.stableSort_perm _ _).length_eq]
    have e1 : (taggedNorm1 df1 df2).rows.length = df1.rows.length :=
      taggedNorm1_height df1 df2
    have e2 : (taggedNorm2 df1 df2).rows.length = df2.rows.length :=
      taggedNorm2_height df1 df2
    rw [e1, e2]
    exact hperm.length_eq
  have hmask : ∀ c ∈ checkColsOf s1, (maskFor s1 s2 c).count true = 0 := by
    intro c hcm
    unfold maskFor
    rw [hcols c hcm]
    exact colMask_self_count _
  have hcd : (detectDiffs s1 s2 []).colsDiff = [] :=
    detectDiffs_colsdiff_of_all_zero s1 s2 [] hmask
  have hlen := success_mask_lengths df1 df2 [] s1 s2 hc halign2 hh
  have hrest := detectDiffs_colsdiff_empty s1 s2 [] hlen hcd
  refine ⟨detectDiffs s1 s2 [], ?_, hcd, hrest.2.2⟩
  unfold executeComparison
  rw [if_neg (not_not_intro hc)]
  simp only [halign2]
  rw [if_neg (not_not_intro hh)]

/-- Witness for C3 at a concrete input: the same two data rows in opposite
physical order compare clean without keys. -/
theorem c3_order_independence_witness :
    ∃ r, executeComparison
      (Table.mk [("id", .int), ("amt", .int)]
        [[some (.vInt 1), some (.vInt 10)], [some (.vInt 2), some (.vInt 20)]])
      (Table.mk [("id", .int), ("amt", .int)]
        [[some (.vInt 2), some (.vInt 20)], [some (.vInt 1), some (.vInt 10)]])
      [] = .success r ∧ r.colsDiff = [] ∧ r.rowsWithError = 0 :=
  c3_order_independence
    (Table.mk [("id", .int), ("amt", .int)]
      [[some (.vInt 1), some (.vInt 10)], [some (.vInt 2), some (.vInt 20)]])
    (Table.mk [("id", .int), ("amt", .int)]
      [[some (.vInt 2), some (.vInt 20)], [some (.vInt 1), some (.vInt 10)]])
    (by decide) (by decide) rfl (by decide)

theorem neMissing_comm (a b : Cell) : neMissing a b = neMissing b a := by
  cases a <;> cases b <;> simp only [neMissing]
  exact decide_eq_decide.mpr ne_comm

theorem colMask_comm (xs ys : List Cell) : colMask xs ys = colMask ys xs := by
  unfold colMask
  induction xs generalizing ys with
  | nil => cases ys <;> rfl
  | cons x xs ih =>
    cases ys with
    | nil => rfl
    | cons y ys =>
      rw [List.zipWith_cons_cons, List.zipWith_cons_cons, neMissing_comm, ih ys]

theorem zipWith_swap_map {α β γ δ : Type} (f : β → α → δ) (g : α → β → γ)
    (h : γ → δ) (hfg : ∀ a b, f b a = h (g a b)) (xs : List α) (ys : List β) :
    List.zipWith f ys xs = (List.zipWith g xs ys).map h := by
  induction xs generalizing ys with
  | nil => cases ys <;> rfl
  | cons x xs ih =>
    cases ys with
    | nil => rfl
    | cons y ys =>
      rw [List.zipWith_cons_cons, List.zipWith_cons_cons, List.map_cons,
        hfg x y, ih ys]

theorem dtypeOf_withRowIndex_ne (tag : String) (t : Table) (name : String)
    (h : tag ≠ name) : (withRowIndex tag t).dtypeOf name = t.dtypeOf name := by
  unfold Table.dtypeOf withRowIndex
  rw [List.find?_cons_of_neg]
  simp [h]

theorem colCast_tagA_none (t1 t2 : Table) : colCast t1 t2 tagNameA = none := by
  unfold colCast
  by_cases h : tagNameA ∈ t1.names ∧ tagNameA ∈ t2.names
  · rw [if_pos h, if_pos (Or.inl rfl)]
  · rw [if_neg h]

theorem colCast_tagB_none (t1 t2 : Table) : colCast t1 t2 tagNameB = none := by
  unfold colCast
  by_cases h : tagNameB ∈ t1.names ∧ tagNameB ∈ t2.names
  · rw [if_pos h, if_pos (Or.inr rfl)]
  · rw [if_neg h]

theorem sortTable_ok_keys (t : Table) (keys : List String) (s : Table)
    (h : sortTable t keys = .ok s) : ∀ k ∈ keys, k ∈ t.names := by
  intro k hk
  unfold sortTable at h
  rcases hf : keys.find? (fun k => decide (k ∉ t.names)) with _ | e
  · rw [List.find?_eq_none] at hf
    have := hf k hk
    simpa using this
  · rw [hf] at h
    simp at h

theorem alignTables_ok_keys (df1 df2 : Table) (keys : List String)
    (s1 s2 : Table) (h : alignTables df1 df2 keys = .ok (s1, s2)) :
    ∀ k ∈ sortColsOf df1 df2 keys,
      k ∈ (taggedNorm1 df1 df2).names ∧ k ∈ (taggedNorm2 df1 df2).names := by
  intro k hk
  unfold alignTables at h
  rcases h1 : sortTable (taggedNorm1 df1 df2) (sortColsOf df1 df2 keys) with e | t1
  · rw [h1] at h
    simp at h
  · simp only [h1] at h
    rcases h2 : sortTable (taggedNorm2 df1 df2) (sortColsOf df1 df2 keys) with e | t2
    · rw [h2] at h
      simp at h
    · exact ⟨sortTable_ok_keys _ _ _ h1 k hk, sortTable_ok_keys _ _ _ h2 k hk⟩

theorem colCast_swap (df1 df2 : Table) (hnames : df1.names = df2.names)
    (name : String) :
    colCast (withRowIndex tagNameA df2) (withRowIndex tagNameB df1) name =
      colCast (withRowIndex tagNameA df1) (withRowIndex tagNameB df2) name := by
  unfold colCast
  rw [withRowIndex_names, withRowIndex_names, withRowIndex_names,
    withRowIndex_names, hnames]
  by_cases hmem : name ∈ tagNameA :: df2.names ∧ name ∈ tagNameB :: df2.names
  · rw [if_pos hmem, if_pos hmem]
    by_cases htag : name = tagNameA ∨ name = tagNameB
    · rw [if_pos htag, if_pos htag]
    · rw [if_neg htag, if_neg htag]
      have hA : tagNameA ≠ name := fun hcontra => htag (Or.inl hcontra.symm)
      have hB : tagNameB ≠ name := fun hcontra => htag (Or.inr hcontra.symm)
      rw [dtypeOf_withRowIndex_ne _ _ _ hA, dtypeOf_withRowIndex_ne _ _ _ hB,
        dtypeOf_withRowIndex_ne _ _ _ hA, dtypeOf_withRowIndex_ne _ _ _ hB]
      rcases e1 : df1.dtypeOf name with _ | a <;>
        rcases e2 : df2.dtypeOf name with _ | b <;>
        simp only []
      by_cases hab : a = b
      · subst hab
        rfl
      · have hba : b ≠ a := fun hcontra => hab hcontra.symm
        rw [if_pos hba, if_pos hab]
  · rw [if_neg hmem, if_neg hmem]

theorem taggedNorm1_swap_rows (df1 df2 : Table) (hnames : df1.names = df2.names) :
    (taggedNorm1 df2 df1).rows = (taggedNorm2 df1 df2).rows := by
  have h1 : (taggedNorm1 df2 df1).rows =
      (List.zipWith (fun i r => some (Val.vInt (2 + Int.ofNat i)) :: r)
        (List.range df2.rows.length) df2.rows).map
        (applyTs (normGs df2 df1 (tagNameA, Dtype.int) ::
          df2.header.map (normGs df2 df1))) := rfl
  have h2 : (taggedNorm2 df1 df2).rows =
      (List.zipWith (fun i r => some (Val.vInt (2 + Int.ofNat i)) :: r)
        (List.range df2.rows.length) df2.rows).map
        (applyTs (normGs df1 df2 (tagNameB, Dtype.int) ::
          df2.header.map (normGs df1 df2))) := rfl
  rw [h1, h2]
  have hhead : normGs df2 df1 (tagNameA, Dtype.int) =
      normGs df1 df2 (tagNameB, Dtype.int) := by
    unfold normGs
    rw [colCast_tagA_none, colCast_tagB_none]
  have htail : df2.header.map (normGs df2 df1) =
      df2.header.map (normGs df1 df2) := by
    refine List.map_congr_left ?_
    intro p hp
    unfold normGs
    rw [colCast_swap df1 df2 hnames p.1]
  rw [hhead, htail]

theorem taggedNorm2_swap_rows (df1 df2 : Table) (hnames : df1.names = df2.names) :
    (taggedNorm2 df2 df1).rows = (taggedNorm1 df1 df2).rows := by
  have h1 : (taggedNorm2 df2 df1).rows =
      (List.zipWith (fun i r => some (Val.vInt (2 + Int.ofNat i)) :: r)
        (List.range df1.rows.length) df1.rows).map
        (applyTs (normGs df2 df1 (tagNameB, Dtype.int) ::
          df1.header.map (normGs df2 df1))) := rfl
  have h2 : (taggedNorm1 df1 df2).rows =
      (List.zipWith (fun i r => some (Val.vInt (2 + Int.ofNat i)) :: r)
        (List.range df1.rows.length) df1.rows).map
        (applyTs (normGs df1 df2 (tagNameA, Dtype.int) ::
          df1.header.map (normGs df1 df2))) := rfl
  rw [h1, h2]
  have hhead : normGs df2 df1 (tagNameB, Dtype.int) =
      normGs df1 df2 (tagNameA, Dtype.int) := by
    unfold normGs
    rw [colCast_tagB_none, colCast_tagA_none]
  have htail : df1.header.map (normGs df2 df1) =
      df1.header.map (normGs df1 df2) := by
    refine List.map_congr_left ?_
    intro p hp
    unfold normGs
    rw [colCast_swap df1 df2 hnames p.1]
  rw [hhead, htail]

theorem sortColsOf_swap (df1 df2 : Table) (w1 : df1.wf) (w2 : df2.wf)
    (hnames : df1.names = df2.names) (keys : List String) :
    sortColsOf df2 df1 keys = sortColsOf df1 df2 keys := by
  unfold sortColsOf
  by_cases hk : keys = []
  · rw [if_pos hk, if_pos hk, taggedNorm1_names, taggedNorm1_names,
      filter_ne_tag_cons _ _ w2.2.1, filter_ne_tag_cons _ _ w1.2.1, hnames]
  · rw [if_neg hk, if_neg hk]

theorem keyIdxs_swap1 (df1 df2 : Table) (K : List String)
    (hKd : ∀ k ∈ K, k ≠ tagNameA ∧ k ≠ tagNameB) :
    keyIdxs (taggedNorm1 df2 df1) K = keyIdxs (taggedNorm2 df1 df2) K := by
  unfold keyIdxs
  refine List.map_congr_left ?_
  intro k hk
  obtain ⟨hA, hB⟩ := hKd k hk
  rw [taggedNorm1_names, taggedNorm2_names, idxOf?_cons_ne _ _ _ (Ne.symm hA),
    idxOf?_cons_ne _ _ _ (Ne.symm hB)]

theorem keyIdxs_swap2 (df1 df2 : Table) (K : List String)
    (hKd : ∀ k ∈ K, k ≠ tagNameA ∧ k ≠ tagNameB) :
    keyIdxs (taggedNorm2 df2 df1) K = keyIdxs (taggedNorm1 df1 df2) K := by
  unfold keyIdxs
  refine List.map_congr_left ?_
  intro k hk
  obtain ⟨hA, hB⟩ := hKd k hk
  rw [taggedNorm1_names, taggedNorm2_names, idxOf?_cons_ne _ _ _ (Ne.symm hA),
    idxOf?_cons_ne _ _ _ (Ne.symm hB)]

theorem col_swap_aux (u v : Table) (tu tv : String) (N : List String)
    (hnu : u.names = tu :: N) (hnv : v.names = tv :: N)
    (hrows : u.rows = v.rows) :
    (∀ c, c ≠ tu → c ≠ tv → u.col c = v.col c) ∧ u.col tu = v.col tv := by
  constructor
  · intro c hA hB
    unfold Table.col
    rw [hnu, hnv, idxOf?_cons_ne _ _ _ (Ne.symm hA),
      idxOf?_cons_ne _ _ _ (Ne.symm hB), hrows]
  · unfold Table.col
    rw [hnu, hnv, hrows]
    simp [idxOf?]

theorem detectDiffs_swap (s1 s2 t1 t2 : Table) (keys : List String)
    (hcc : checkColsOf t1 = checkColsOf s1)
    (hmask : ∀ c ∈ checkColsOf s1, maskFor t1 t2 c = maskFor s1 s2 c)
    (hrecs : ∀ c ∈ checkColsOf s1, ∀ m : List Bool,
      diffRecords t1 t2 c m = (diffRecords s1 s2 c m).map swapRec) :
    (detectDiffs t1 t2 keys).colsDiff = (detectDiffs s1 s2 keys).colsDiff ∧
    (detectDiffs t1 t2 keys).rowsWithError = (detectDiffs s1 s2 keys).rowsWithError ∧
    (detectDiffs t1 t2 keys).diffs =
      (detectDiffs s1 s2 keys).diffs.map
        (fun x => (x.1, x.2.1, x.2.2.map swapRec)) := by
  have hpairs : (checkColsOf t1).map (fun c => (c, maskFor t1 t2 c)) =
      (checkColsOf s1).map (fun c => (c, maskFor s1 s2 c)) := by
    rw [hcc]
    refine List.map_congr_left ?_
    intro c hc
    rw [hmask c hc]
  refine ⟨?_, ?_, ?_⟩
  · simp only [detectDiffs, hpairs]
  · simp only [detectDiffs, hpairs]
  · simp only [detectDiffs, hpairs, List.map_map]
    refine List.map_congr_left ?_
    intro cm hcm
    have hcm2 : cm ∈ (checkColsOf s1).map (fun c => (c, maskFor s1 s2 c)) :=
      List.mem_of_mem_filter hcm
    rw [List.mem_map] at hcm2
    obtain ⟨c, hc, rfl⟩ := hcm2
    simp only [Function.comp]
    rw [hrecs c hc]

/-- C8 (amended): for tables that list their data columns in the same
order, comparing (A,B) and (B,A) with the same keys yields the same
mismatched-column list, the same rows-with-error count, and diff records
with both the tag pair and the value pair swapped (which in particular
swaps each record's (valueA, valueB) pair). -/
theorem c8_symmetry_amended (df1 df2 : Table) (keys : List String)
    (w1 : df1.wf) (w2 : df2.wf)
    (hnames : df1.names = df2.names)
    (r1 : SuccessData)
    (h : executeComparison df1 df2 keys = .success r1) :
    ∃ r2, executeComparison df2 df1 keys = .success r2 ∧
      r2.colsDiff = r1.colsDiff ∧
      r2.rowsWithError = r1.rowsWithError ∧
      r2.diffs = r1.diffs.map (fun x => (x.1, x.2.1, x.2.2.map swapRec)) := by
  obtain ⟨hc, s1, s2, halign1, hh, hr1⟩ :=
    executeComparison_success_inv df1 df2 keys r1 h
  obtain ⟨hs1h, hs2h, hs1r, hs2r⟩ := alignTables_ok_inv df1 df2 keys s1 s2 halign1
  have hkeysmem := alignTables_ok_keys df1 df2 keys s1 s2 halign1
  have hKd : ∀ k ∈ sortColsOf df1 df2 keys,
      k ≠ tagNameA ∧ k ≠ tagNameB ∧ k ∈ df1.names ∧ k ∈ df2.names := by
    intro k hk
    obtain ⟨h1, h2⟩ := hkeysmem k hk
    rw [taggedNorm1_names] at h1
    rw [taggedNorm2_names] at h2
    rcases List.mem_cons.mp h1 with rfl | h1d
    · rcases List.mem_cons.mp h2 with he | h2d
      · exact absurd he (by decide)
      · exact absurd h2d w2.2.1
    · rcases List.mem_cons.mp h2 with rfl | h2d
      · exact absurd h1d w1.2.2
      · exact ⟨fun hcontra => w1.2.1 (hcontra ▸ h1d),
          fun hcontra => w2.2.2 (hcontra ▸ h2d), h1d, h2d⟩
  have hK2 := sortColsOf_swap df1 df2 w1 w2 hnames keys
  have h1' : ∀ k ∈ sortColsOf df2 df1 keys, k ∈ (taggedNorm1 df2 df1).names := by
    intro k hk
    rw [hK2] at hk
    rw [taggedNorm1_names]
    exact List.mem_cons_of_mem _ (hKd k hk).2.2.2
  have h2' : ∀ k ∈ sortColsOf df2 df1 keys, k ∈ (taggedNorm2 df2 df1).names := by
    intro k hk
    rw [hK2] at hk
    rw [taggedNorm2_names]
    exact List.mem_cons_of_mem _ (hKd k hk).2.2.1
  have halign2 := alignTables_ok df2 df1 keys h1' h2'
  obtain ⟨t1, t2, halign2b, ht1h, ht2h, ht1r, ht2r⟩ :
      ∃ t1 t2, alignTables df2 df1 keys = .ok (t1, t2) ∧
        t1.header = (taggedNorm1 df2 df1).header ∧
        t2.header = (taggedNorm2 df2 df1).header ∧
        t1.rows = (taggedNorm1 df2 df1).rows.stableSort
          (rowLe (keyIdxs (taggedNorm1 df2 df1) (sortColsOf df2 df1 keys))) ∧
        t2.rows = (taggedNorm2 df2 df1).rows.stableSort
          (rowLe (keyIdxs (taggedNorm2 df2 df1) (sortColsOf df2 df1 keys))) :=
    ⟨_, _, halign2, rfl, rfl, rfl, rfl⟩
  have hKpairs : ∀ k ∈ sortColsOf df1 df2 keys, k ≠ tagNameA ∧ k ≠ tagNameB :=
    fun k hk => ⟨(hKd k hk).1, (hKd k hk).2.1⟩
  have ht1rows : t1.rows = s2.rows := by
    rw [ht1r, hs2r, hK2, taggedNorm1_swap_rows df1 df2 hnames,
      keyIdxs_swap1 df1 df2 _ hKpairs]
  have ht2rows : t2.rows = s1.rows := by
    rw [ht2r, hs1r, hK2, taggedNorm2_swap_rows df1 df2 hnames,
      keyIdxs_swap2 df1 df2 _ hKpairs]
  have hs1names : s1.names = tagNameA :: df1.names := by
    rw [Table.names_of_header_eq hs1h, taggedNorm1_names]
  have hs2names : s2.names = tagNameB :: df2.names := by
    rw [Table.names_of_header_eq hs2h, taggedNorm2_names]
  have ht1names : t1.names = tagNameA :: df2.names := by
    rw [Table.names_of_header_eq ht1h, taggedNorm1_names]
  have ht2names : t2.names = tagNameB :: df1.names := by
    rw [Table.names_of_header_eq ht2h, taggedNorm2_names]
  have hca := col_swap_aux t1 s2 tagNameA tagNameB df2.names
    ht1names hs2names ht1rows
  have hcb := col_swap_aux t2 s1 tagNameB tagNameA df1.names
    ht2names hs1names ht2rows
  have hccs1 : checkColsOf s1 = df1.names := by
    unfold checkColsOf
    rw [hs1names, filter_ne_tag_cons _ _ w1.2.1]
  have hcct1 : checkColsOf t1 = df2.names := by
    unfold checkColsOf
    rw [ht1names, filter_ne_tag_cons _ _ w2.2.1]
  have hcc : checkColsOf t1 = checkColsOf s1 := by
    rw [hcct1, hccs1, hnames]
  have hdata : ∀ c ∈ checkColsOf s1, c ≠ tagNameA ∧ c ≠ tagNameB := by
    intro c hcm
    rw [hccs1] at hcm
    exact ⟨fun hcontra => w1.2.1 (hcontra ▸ hcm),
      fun hcontra => w1.2.2 (hcontra ▸ hcm)⟩
  have hmask : ∀ c ∈ checkColsOf s1, maskFor t1 t2 c = maskFor s1 s2 c := by
    intro c hcm
    obtain ⟨hA, hB⟩ := hdata c hcm
    unfold maskFor
    rw [hca.1 c hA hB, hcb.1 c hB hA]
    exact colMask_comm _ _
  have hrecs : ∀ c ∈ checkColsOf s1, ∀ m : List Bool,
      diffRecords t1 t2 c m = (diffRecords s1 s2 c m).map swapRec := by
    intro c hcm m
    obtain ⟨hA, hB⟩ := hdata c hcm
    unfold diffRecords
    rw [hca.1 c hA hB, hcb.1 c hB hA, hca.2, hcb.2]
    exact zipWith_swap_map
      (fun (a b : Cell × Cell) =>
        ({ linA := a.1, linB := b.1, valA := a.2, valB := b.2 } : DiffRec))
      (fun (a b : Cell × Cell) =>
        ({ linA := a.1, linB := b.1, valA := a.2, valB := b.2 } : DiffRec))
      swapRec (fun a b => rfl) _ _
  have hdd := detectDiffs_swap s1 s2 t1 t2 keys hcc hmask hrecs
  have hht : t1.height = t2.height := by
    unfold Table.height
    rw [ht1rows, ht2rows]
    exact hh.symm
  have hc2 : dataColsA df2 = dataColsB df1 := by
    rw [dataColsA_eq df2 w2.2.1, dataColsB_eq df1 w1.2.2, hnames]
  refine ⟨detectDiffs t1 t2 keys, ?_, ?_, ?_, ?_⟩
  · unfold executeComparison
    rw [if_neg (not_not_intro hc2)]
    simp only [halign2b]
    rw [if_neg (not_not_intro hht)]
  · rw [hr1]
    exact hdd.1
  · rw [hr1]
    exact hdd.2.1
  · rw [hr1]
    exact hdd.2.2

/-- C8 counterexample: with no keys and the same column-name set listed in
different orders, comparing (A,B) flags column "y" while comparing (B,A)
flags column "x" — the two runs do not yield the same set of mismatched
column names, because the no-key sort and the diff loop follow the first
table's column order. -/
theorem c8_symmetry_counterexample :
    (executeComparison
      (Table.mk [("x", .int), ("y", .int)]
        [[some (.vInt 1), some (.vInt 2)], [some (.vInt 2), some (.vInt 1)]])
      (Table.mk [("y", .int), ("x", .int)]
        [[some (.vInt 1), some (.vInt 1)], [some (.vInt 2), some (.vInt 2)]])
      []).isSuccess = true ∧
    (executeComparison
      (Table.mk [("y", .int), ("x", .int)]
        [[some (.vInt 1), some (.vInt 1)], [some (.vInt 2), some (.vInt 2)]])
      (Table.mk [("x", .int), ("y", .int)]
        [[some (.vInt 1), some (.vInt 2)], [some (.vInt 2), some (.vInt 1)]])
      []).isSuccess = true ∧
    resultColsDiff (executeComparison
      (Table.mk [("x", .int), ("y", .int)]
        [[some (.vInt 1), some (.vInt 2)], [some (.vInt 2), some (.vInt 1)]])
      (Table.mk [("y", .int), ("x", .int)]
        [[some (.vInt 1), some (.vInt 1)], [some (.vInt 2), some (.vInt 2)]])
      []) = ["y"] ∧
    resultColsDiff (executeComparison
      (Table.mk [("y", .int), ("x", .int)]
        [[some (.vInt 1), some (.vInt 1)], [some (.vInt 2), some (.vInt 2)]])
      (Table.mk [("x", .int), ("y", .int)]
        [[some (.vInt 1), some (.vInt 2)], [some (.vInt 2), some (.vInt 1)]])
      []) = ["x"] := by
  refine ⟨by decide, by decide, by decide, by decide⟩

/-- Witness for C8 at a concrete input: a one-column pair with a single
differing value, compared both ways. -/
theorem c8_symmetry_amended_witness :
    ∃ r1 r2,
      executeComparison (Table.mk [("a", .int)] [[some (.vInt 1)]])
        (Table.mk [("a", .int)] [[some (.vInt 2)]]) [] = .success r1 ∧
      executeComparison (Table.mk [("a", .int)] [[some (.vInt 2)]])
        (Table.mk [("a", .int)] [[some (.vInt 1)]]) [] = .success r2 ∧
      r2.colsDiff = r1.colsDiff ∧
      r2.rowsWithError = r1.rowsWithError ∧
      r2.diffs = r1.diffs.map (fun x => (x.1, x.2.1, x.2.2.map swapRec)) := by
  obtain ⟨r1, hec⟩ := isSuccess_exists
    (executeComparison (Table.mk [("a", .int)] [[some (.vInt 1)]])
      (Table.mk [("a", .int)] [[some (.vInt 2)]]) []) (by decide)
  obtain ⟨r2, h2, hcd, hrwe, hdf⟩ := c8_symmetry_amended
    (Table.mk [("a", .int)] [[some (.vInt 1)]])
    (Table.mk [("a", .int)] [[some (.vInt 2)]]) []
    (by decide) (by decide) rfl r1 hec
  exact ⟨r1, r2, hec, h2, hcd, hrwe, hdf⟩
